import Mathlib

/-!
Verification development for the ProjectAtlas header-extraction and
consistency-checking engine, a shallow embedding of the functions in
src/projectatlas/atlas.py and src/projectatlas/cli.py.

Modelling conventions:
frontier strings are Lean String values (a String is a list of Unicode code
points, matching Python str); file contents are given as lists of lines, the
result of read_text followed by splitlines; repository paths are lists of
path components relative to the repository root (the root directory itself
is the empty list); Python sets of strings are lists used only through
membership; Python dicts are association lists with insertion-order update
semantics; filesystem reads are lookups into an explicit RepoState value.
Python whitespace handling (str.strip, the regex class for spaces) is
modelled on the six ASCII whitespace characters; lowercasing is ASCII, as in
every string the engine actually compares.
-/

set_option maxRecDepth 400000

namespace ProjectAtlas

/-! Python string primitives. -/

/-- Whitespace test used by Python str.strip and the regex space class,
restricted to the six ASCII whitespace characters. -/
def pyWs (c : Char) : Bool :=
  c = ' ' || c = '\t' || c = '\n' || c = '\r' || c = Char.ofNat 11 || c = Char.ofNat 12

/-- Drop trailing characters satisfying p. -/
def dropTrail (p : Char → Bool) (l : List Char) : List Char :=
  (l.reverse.dropWhile p).reverse

/-- Model of Python str.strip with no argument. -/
def pyStrip (s : String) : String :=
  String.mk (dropTrail pyWs (s.data.dropWhile pyWs))

/-- Replace every maximal whitespace run with one space, as the regex
substitution of a whitespace run by a single space does. The flag records
whether the previous character was part of a whitespace run. -/
def sqWs : Bool → List Char → List Char
  | _, [] => []
  | b, c :: cs =>
    if pyWs c then (if b then sqWs true cs else ' ' :: sqWs true cs)
    else c :: sqWs false cs

/-- Model of normalize_summary in atlas.py: strip the summary, then replace
each whitespace run with a single space. -/
def normalize_summary (summary : String) : String :=
  String.mk (sqWs false (pyStrip summary).data)

/-- Model of Python str.startswith for a single literal. -/
def strStarts (p s : String) : Bool := p.data.isPrefixOf s.data

/-- Model of Python str.endswith for a single literal. -/
def strEnds (p s : String) : Bool := p.data.isSuffixOf s.data

/-- Model of Python sep.join applied to a list of strings. -/
def strJoin (sep : String) : List String → String
  | [] => ""
  | [x] => x
  | x :: y :: rest => x ++ sep ++ strJoin sep (y :: rest)

/-- Split at the first occurrence of a character, as Python str.split with a
one-character separator and maxsplit equal to one; none when the character
does not occur. -/
def split_once (sep : Char) : List Char → Option (List Char × List Char)
  | [] => none
  | c :: cs =>
    if c = sep then some ([], cs)
    else (split_once sep cs).map (fun p => (c :: p.1, p.2))

/-- Part of the string before the first occurrence of the delimiter, as the
first component of Python str.split with maxsplit one for a multi-character
separator that is known to occur. -/
def split_before (d : List Char) : List Char → List Char
  | [] => []
  | c :: cs => if d.isPrefixOf (c :: cs) then [] else c :: split_before d cs

/-- Containment of one character list in another, the Python in operator on
strings. -/
def listInfix (d : List Char) : List Char → Bool
  | [] => d.isEmpty
  | c :: cs => d.isPrefixOf (c :: cs) || listInfix d cs

/-- Lexicographic comparison of code-point lists, the order Python uses to
compare strings. -/
def strLeCh : List Char → List Char → Bool
  | [], _ => true
  | _ :: _, [] => false
  | a :: as, b :: bs =>
    if a.toNat < b.toNat then true
    else if b.toNat < a.toNat then false
    else strLeCh as bs

/-- Python string comparison, used by sorted on strings. -/
def strLe (a b : String) : Bool := strLeCh a.data b.data

/-- Sort a list of strings ascending, as Python sorted does. The keys the
engine sorts are pairwise distinct, so any comparison sort agrees with the
Python result and insertion sort is used. -/
def sortStrings (l : List String) : List String :=
  List.insertionSort (fun a b => strLe a b = true) l

/-- Whitespace split as Python str.split with no argument: maximal nonblank
runs, with empty tokens never produced. -/
def split_ws_go : List Char → List Char → List String
  | acc, [] => if acc.isEmpty then [] else [String.mk acc.reverse]
  | acc, c :: cs =>
    if pyWs c then
      (if acc.isEmpty then split_ws_go [] cs else String.mk acc.reverse :: split_ws_go [] cs)
    else split_ws_go (c :: acc) cs

/-- Model of Python str.split with no argument. -/
def split_ws (s : String) : List String := split_ws_go [] s.data

/-- Model of Python str.isdigit restricted to ASCII digits, with the empty
string rejected as Python does. -/
def pyIsDigits (l : List Char) : Bool :=
  !l.isEmpty && l.all (fun c => '0' ≤ c && c ≤ '9')

/-- Decimal value of a digit string, as Python int applied to it. -/
def natOfDigits (l : List Char) : Nat :=
  l.foldl (fun n c => n * 10 + (c.toNat - 48)) 0

/-- ASCII lowercase of a string, modelling Python str.lower on the ASCII
values the engine compares. -/
def pyLower (s : String) : String := String.mk (s.data.map Char.toLower)

/-- Strip double-quote characters from both ends, as Python str.strip with a
double-quote argument. -/
def stripQuotes (s : String) : String :=
  String.mk (dropTrail (fun c => c = '"') (s.data.dropWhile (fun c => c = '"')))

/-! SHA-256, the digest used by the fingerprinter (hashlib.sha256 with
hexdigest). Words are natural numbers reduced modulo two to the thirty-two. -/

/-- Reduce to a 32-bit word. -/
def w32 (n : Nat) : Nat := n % 4294967296

/-- Rotate a 32-bit word right. -/
def rotr (n x : Nat) : Nat := w32 ((x >>> n) ||| (x <<< (32 - n)))

/-- Choice function of the SHA-256 round. -/
def shaCh (x y z : Nat) : Nat := (x &&& y) ^^^ ((x ^^^ 4294967295) &&& z)

/-- Majority function of the SHA-256 round. -/
def shaMaj (x y z : Nat) : Nat := (x &&& y) ^^^ (x &&& z) ^^^ (y &&& z)

/-- Large sigma-0 of SHA-256. -/
def bsig0 (x : Nat) : Nat := rotr 2 x ^^^ rotr 13 x ^^^ rotr 22 x

/-- Large sigma-1 of SHA-256. -/
def bsig1 (x : Nat) : Nat := rotr 6 x ^^^ rotr 11 x ^^^ rotr 25 x

/-- Small sigma-0 of SHA-256. -/
def ssig0 (x : Nat) : Nat := rotr 7 x ^^^ rotr 18 x ^^^ (x >>> 3)

/-- Small sigma-1 of SHA-256. -/
def ssig1 (x : Nat) : Nat := rotr 17 x ^^^ rotr 19 x ^^^ (x >>> 10)

/-- Round constants of SHA-256. -/
def shaK : List Nat :=
  [1116352408, 1899447441, 3049323471, 3921009573, 961987163, 1508970993, 2453635748, 2870763221,
   3624381080, 310598401, 607225278, 1426881987, 1925078388, 2162078206, 2614888103, 3248222580,
   3835390401, 4022224774, 264347078, 604807628, 770255983, 1249150122, 1555081692, 1996064986,
   2554220882, 2821834349, 2952996808, 3210313671, 3336571891, 3584528711, 113926993, 338241895,
   666307205, 773529912, 1294757372, 1396182291, 1695183700, 1986661051, 2177026350, 2456956037,
   2730485921, 2820302411, 3259730800, 3345764771, 3516065817, 3600352804, 4094571909, 275423344,
   430227734, 506948616, 659060556, 883997877, 958139571, 1322822218, 1537002063, 1747873779,
   1955562222, 2024104815, 2227730452, 2361852424, 2428436474, 2756734187, 3204031479, 3329325298]

/-- Initial hash state of SHA-256. -/
def shaH0 : List Nat :=
  [1779033703, 3144134277, 1013904242, 2773480762,
   1359893119, 2600822924, 528734635, 1541459225]

/-- Standard SHA-256 padding of a byte message. -/
def sha_pad (msg : List Nat) : List Nat :=
  let L := msg.length
  let k := (64 + 55 - (L % 64)) % 64
  msg ++ [0x80] ++ List.replicate k 0 ++
    (List.range 8).map (fun i => ((8 * L) >>> (8 * (7 - i))) % 256)

/-- Split a padded message into 64-byte blocks; the fuel argument only
bounds the structural recursion and is passed larger than the length. -/
def chunks64 : Nat → List Nat → List (List Nat)
  | 0, _ => []
  | _, [] => []
  | fuel+1, l => l.take 64 :: chunks64 fuel (l.drop 64)

/-- Sixteen message words of a block, big endian. -/
def block_words (b : List Nat) : List Nat :=
  (List.range 16).map (fun i =>
    b.getD (4*i) 0 * 16777216 + b.getD (4*i+1) 0 * 65536 + b.getD (4*i+2) 0 * 256 + b.getD (4*i+3) 0)

/-- Extend the message schedule by the given number of words. -/
def sched_ext : Nat → List Nat → List Nat
  | 0, ws => ws
  | k+1, ws =>
    let t := ws.length
    let w := w32 (ssig1 (ws.getD (t-2) 0) + ws.getD (t-7) 0 + ssig0 (ws.getD (t-15) 0) + ws.getD (t-16) 0)
    sched_ext k (ws ++ [w])

/-- Working state of the SHA-256 compression rounds. -/
structure H8 where
  a : Nat
  b : Nat
  c : Nat
  d : Nat
  e : Nat
  f : Nat
  g : Nat
  h : Nat

/-- One SHA-256 compression round; the pair carries the schedule word and
the round constant. -/
def sha_round (s : H8) (kw : Nat × Nat) : H8 :=
  let t1 := w32 (s.h + bsig1 s.e + shaCh s.e s.f s.g + kw.2 + kw.1)
  let t2 := w32 (bsig0 s.a + shaMaj s.a s.b s.c)
  ⟨w32 (t1 + t2), s.a, s.b, s.c, w32 (s.d + t1), s.e, s.f, s.g⟩

/-- Compress one 64-byte block into the running hash state. -/
def compress_block (hs : List Nat) (b : List Nat) : List Nat :=
  let ws := sched_ext 48 (block_words b)
  let s0 : H8 := ⟨hs.getD 0 0, hs.getD 1 0, hs.getD 2 0, hs.getD 3 0,
                  hs.getD 4 0, hs.getD 5 0, hs.getD 6 0, hs.getD 7 0⟩
  let sf := (ws.zip shaK).foldl sha_round s0
  [w32 (hs.getD 0 0 + sf.a), w32 (hs.getD 1 0 + sf.b), w32 (hs.getD 2 0 + sf.c),
   w32 (hs.getD 3 0 + sf.d), w32 (hs.getD 4 0 + sf.e), w32 (hs.getD 5 0 + sf.f),
   w32 (hs.getD 6 0 + sf.g), w32 (hs.getD 7 0 + sf.h)]

/-- SHA-256 digest bytes of a byte message. -/
def sha256_bytes (msg : List Nat) : List Nat :=
  let padded := sha_pad msg
  let final := (chunks64 (padded.length + 1) padded).foldl compress_block shaH0
  (final.map (fun w => [(w >>> 24) % 256, (w >>> 16) % 256, (w >>> 8) % 256, w % 256])).flatten

/-- Lowercase hexadecimal digit. -/
def hexDigit (n : Nat) : Char := "0123456789abcdef".data.getD n '0'

/-- UTF-8 encoding of one code point, as Python str.encode produces. -/
def utf8_char (c : Char) : List Nat :=
  let n := c.toNat
  if n < 128 then [n]
  else if n < 2048 then [192 + n / 64, 128 + n % 64]
  else if n < 65536 then [224 + n / 4096, 128 + (n / 64) % 64, 128 + n % 64]
  else [240 + n / 262144, 128 + (n / 4096) % 64, 128 + (n / 64) % 64, 128 + n % 64]

/-- UTF-8 encoding of a string. -/
def utf8_encode (s : String) : List Nat :=
  (s.data.map utf8_char).flatten

/-- Model of hashlib.sha256 over the UTF-8 encoding followed by hexdigest,
as the fingerprinter calls it. -/
def sha256_hex (s : String) : String :=
  String.mk (((sha256_bytes (utf8_encode s)).map (fun b => [hexDigit (b / 16), hexDigit (b % 16)])).flatten)

/-! Data model, models.py. -/

/-- Model of the Record dataclass in models.py: path, summary and source
kind, all strings as in the source. -/
structure Record where
  path : String
  summary : String
  source : String
deriving DecidableEq

/-- Model of the AtlasConfig fields the engine reads (config.py dataclass,
restricted to the fields used by atlas.py and cli.py). Python sets of
strings become lists used through membership; the manual sidecar location
is a repository-relative path when configured. -/
structure AtlasConfig where
  source_extensions : List String
  exclude_dir_names : List String
  exclude_dir_suffixes : List String
  exclude_path_prefixes : List String
  non_source_path_prefixes : List String
  allowed_untracked_filenames : List String
  untracked_allowlist_dir_prefixes : List String
  untracked_allowlist_files : List String
  asset_allowed_prefixes : List String
  asset_extensions : List String
  max_scan_lines : Nat
  summary_max_length : Nat
  summary_ascii_only : Bool
  summary_no_commas : Bool
  purpose_filename : String
  manual_files_path : Option (List String)

/-- A repository state: the directories under the root (as component lists
relative to the root, with the root itself the empty list) and the files
with their text content split into lines. -/
structure RepoState where
  dirs : List (List String)
  files : List (List String × List String)

/-! Path classification, atlas.py lines 32 to 60 and 130 to 150. -/

/-- Posix rendering of a relative path, as Path.as_posix on a path relative
to the root; the root itself renders as a dot. -/
def posix (p : List String) : String :=
  match p with
  | [] => "."
  | _ => strJoin "/" p

/-- Parent of a relative path, as Path.parent within the root. -/
def parentPath (p : List String) : List String := p.dropLast

/-- Model of pathlib suffix of a file name: the part from the last dot on,
provided that dot is neither the first nor the last character. -/
def pySuffix (name : String) : String :=
  let n := name.data
  match n.reverse.findIdx? (fun c => c = '.') with
  | none => ""
  | some r => if 1 ≤ r && r + 2 ≤ n.length then String.mk (n.drop (n.length - 1 - r)) else ""

/-- Model of file_extension in atlas.py: a name ending in the two-part
declaration suffix keeps it whole, otherwise the lowercased pathlib
suffix. -/
def file_extension (p : List String) : String :=
  let name := p.getLastD ""
  if strEnds ".d.ts" name then ".d.ts"
  else pyLower (pySuffix name)

/-- Model of is_source_file in atlas.py. -/
def is_source_file (p : List String) (config : AtlasConfig) : Bool :=
  config.source_extensions.contains (file_extension p)

/-- Model of is_under_prefix in atlas.py: the path equals a listed value or
lies strictly under it. -/
def is_under_prefixes (rel_posix : String) (prefixes : List String) : Bool :=
  prefixes.any (fun p => rel_posix = p || strStarts (p ++ "/") rel_posix)

/-- Model of is_excluded_rel_path in atlas.py: the root is never excluded;
otherwise a path is excluded when a component matches an excluded directory
name, a component ends with an excluded suffix, or the posix form equals or
lies under an excluded path prefix. -/
def is_excluded_rel_path (rel : List String) (config : AtlasConfig) : Bool :=
  if rel.isEmpty then false
  else if rel.any (fun part => config.exclude_dir_names.contains part) then true
  else if rel.any (fun part => config.exclude_dir_suffixes.any (fun suf => strEnds suf part)) then true
  else is_under_prefixes (posix rel) config.exclude_path_prefixes

/-- Model of is_asset_file in atlas.py: the plain lowercased pathlib suffix
is an asset extension (without the declaration-file special case). -/
def is_asset_file (p : List String) (config : AtlasConfig) : Bool :=
  config.asset_extensions.contains (pyLower (pySuffix (p.getLastD "")))

/-- Model of is_allowed_untracked in atlas.py. -/
def is_allowed_untracked (rel : List String) (config : AtlasConfig) : Bool :=
  config.allowed_untracked_filenames.contains (rel.getLastD "") ||
  config.untracked_allowlist_files.contains (posix rel) ||
  is_under_prefixes (posix rel) config.untracked_allowlist_dir_prefixes

/-! Purpose extraction, atlas.py lines 162 to 291. -/

/-- Model of searching a cleaned line with the Purpose regex and taking the
first capture group. The regex engine takes the leftmost occurrence of the
Purpose marker that is followed by at least one character; with a greedy
whitespace star and backtracking, the group is the remainder with its
maximal whitespace prefix removed, except that an all-whitespace remainder
yields its final whitespace character. -/
def purpose_group : List Char → Option (List Char)
  | [] => none
  | c :: rest =>
    if "Purpose:".data.isPrefixOf (c :: rest) && 8 ≤ rest.length then
      let r := (c :: rest).drop 8
      let g := r.dropWhile pyWs
      some (if g.isEmpty then r.drop (r.length - 1) else g)
    else purpose_group rest

/-- Model of the per-line cleaning in extract_purpose_from_lines: strip the
line, remove one leading block-comment opener (a slash followed by at least
two stars), remove a trailing star-slash closer, remove leading stars, and
strip again. -/
def clean_comment_line (raw : String) : String :=
  let c1 := (pyStrip raw).data
  let c2 :=
    match c1 with
    | '/' :: rest =>
      if 2 ≤ (rest.takeWhile (fun c => c = '*')).length then rest.dropWhile (fun c => c = '*')
      else c1
    | _ => c1
  let c3 := if ['*', '/'].isSuffixOf c2 then c2.dropLast.dropLast else c2
  pyStrip (String.mk (c3.dropWhile (fun c => c = '*')))

/-- Model of extract_purpose_from_lines in atlas.py: the first line whose
cleaned form matches the Purpose regex yields the normalized group. -/
def extract_purpose_from_lines : List String → Option String
  | [] => none
  | raw :: rest =>
    match purpose_group (clean_comment_line raw).data with
    | some g => some (normalize_summary (String.mk g))
    | none => extract_purpose_from_lines rest

/-- Model of the Javadoc block-opening regex: optional whitespace then a
slash and two stars, matched at the start of the line. -/
def javadoc_start (l : String) : Bool :=
  "/**".data.isPrefixOf (l.data.dropWhile pyWs)

/-- Model of the Javadoc closing regex searched anywhere in the line. -/
def javadoc_close (l : String) : Bool :=
  listInfix ['*', '/'] l.data

/-- Skip blank lines, counting the running line index. -/
def skip_blank_lines : Nat → List String → Nat × List String
  | i, [] => (i, [])
  | i, l :: ls => if (pyStrip l).data.isEmpty then skip_blank_lines (i+1) ls else (i, l :: ls)

/-- Collect the lines of a Javadoc block from the given index up to and
including the line holding the closer; none when the scan-line bound or the
file ends first, as the unterminated case of the source loop. -/
def javadoc_collect (maxScan : Nat) : Nat → List String → Option (List String)
  | _, [] => none
  | i, l :: ls =>
    if i < maxScan then
      if javadoc_close l then some [l]
      else (javadoc_collect maxScan (i+1) ls).map (fun blk => l :: blk)
    else none

/-- Model of extract_javadoc_purpose in atlas.py. -/
def extract_javadoc_purpose (lines : List String) (maxScan : Nat) :
    Option String × List String :=
  let (i0, ls0) :=
    match lines with
    | [] => (0, ([] : List String))
    | l :: ls => if strStarts "#!" l then (1, ls) else (0, l :: ls)
  let (i1, ls1) := skip_blank_lines i0 ls0
  match ls1 with
  | [] => (none, ["missing Javadoc-style Purpose header"])
  | l :: ls =>
    if javadoc_start l then
      match javadoc_collect maxScan (i1 + 1) ls with
      | none => (none, ["unterminated Javadoc-style header"])
      | some blk =>
        match extract_purpose_from_lines (l :: blk) with
        | none => (none, ["missing Purpose line in Javadoc-style header"])
        | some s =>
          if s = "" then (none, ["missing Purpose line in Javadoc-style header"])
          else (some s, [])
    else (none, ["missing Javadoc-style Purpose header"])

/-- The coding-declaration regex of atlas.py: a hash then any characters
then the word coding followed by a colon or an equals sign. -/
def py_coding (t : String) : Bool :=
  match t.data with
  | '#' :: rest => listInfix "coding:".data rest || listInfix "coding=".data rest
  | _ => false

/-- Leading-line skipping of extract_python_docstring_purpose: shebang,
coding declarations, blank lines and comment lines are passed over. -/
def py_skip : Nat → List String → Nat × List String
  | i, [] => (i, [])
  | i, l :: ls =>
    let t := pyStrip l
    if strStarts "#!" t || py_coding t || t.data.isEmpty then py_skip (i+1) ls
    else if strStarts "#" t then py_skip (i+1) ls
    else (i, l :: ls)

/-- The triple-quote delimiter written with single-quote characters. -/
def sq3 : String := String.mk (List.replicate 3 (Char.ofNat 39))

/-- Model of the module-docstring opening regex applied to the stripped
line: optional string-marker letters, then one of the two triple-quote
delimiters, the double-quoted one tried first; returns the delimiter and
the rest of the line after it. -/
def py_docstring_open (t : String) : Option (String × String) :=
  let l := t.data
  let rest := l.dropWhile (fun c => ['r','u','b','f','R','U','B','F'].contains c)
  if "\"\"\"".data.isPrefixOf rest then some ("\"\"\"", String.mk (rest.drop 3))
  else if sq3.data.isPrefixOf rest then some (sq3, String.mk (rest.drop 3))
  else none

/-- Collect docstring block lines from the given index until a line holds
the closing delimiter, keeping only the part before it, up to the scan-line
bound; none when the bound or the file ends first. -/
def py_block_collect (delim : String) (maxScan : Nat) : Nat → List String → Option (List String)
  | _, [] => none
  | i, l :: ls =>
    if i < maxScan then
      if listInfix delim.data l.data then some [String.mk (split_before delim.data l.data)]
      else (py_block_collect delim maxScan (i+1) ls).map (fun blk => l :: blk)
    else none

/-- Model of extract_python_docstring_purpose in atlas.py. -/
def extract_python_docstring_purpose (lines : List String) (maxScan : Nat) :
    Option String × List String :=
  let (i, ls) := py_skip 0 lines
  match ls with
  | [] => (none, ["missing module docstring Purpose header"])
  | l :: rest =>
    match py_docstring_open (pyStrip l) with
    | none => (none, ["missing module docstring Purpose header"])
    | some (delim, remainder) =>
      if listInfix delim.data remainder.data then
        match extract_purpose_from_lines [String.mk (split_before delim.data remainder.data)] with
        | none => (none, ["missing Purpose line in module docstring"])
        | some s =>
          if s = "" then (none, ["missing Purpose line in module docstring"])
          else (some s, [])
      else
        match py_block_collect delim maxScan (i + 1) rest with
        | none => (none, ["unterminated module docstring"])
        | some blk =>
          match extract_purpose_from_lines blk with
          | none => (none, ["missing Purpose line in module docstring"])
          | some s =>
            if s = "" then (none, ["missing Purpose line in module docstring"])
            else (some s, [])

/-- Model of the template opening-tag regex: optional whitespace, an angle
bracket and the tag name, then a word boundary (end of line or a non-word
character). -/
def vue_open_tag (tag : String) (l : String) : Bool :=
  let rest := l.data.dropWhile pyWs
  let pat := ("<" ++ tag).data
  pat.isPrefixOf rest &&
    (match rest.drop pat.length with
     | [] => true
     | c :: _ => !(c.isAlphanum || c = '_'))

/-- Model of the template closing-tag regex: optional whitespace then the
literal closing tag. -/
def vue_close_tag (tag : String) (l : String) : Bool :=
  ("</" ++ tag ++ ">").data.isPrefixOf (l.data.dropWhile pyWs)

/-- Extraction attempt for one template tag: none when no opening tag line
exists; otherwise the unterminated failure, or the Javadoc dialect applied
to the enclosed lines, a missing-header failure replacing any outcome
without a summary. -/
def extract_vue_tag (tag : String) (lines : List String) (maxScan : Nat) :
    Option (Option String × List String) :=
  match lines.findIdx? (vue_open_tag tag) with
  | none => none
  | some start =>
    let after := lines.drop (start + 1)
    match after.findIdx? (vue_close_tag tag) with
    | none => some (none, ["unterminated <" ++ tag ++ "> block"])
    | some k =>
      match extract_javadoc_purpose (after.take k) maxScan with
      | (some s, issues) =>
        if s = "" then
          some (none, ["missing Javadoc-style Purpose header in <" ++ tag ++ "> block"])
        else some (some s, issues)
      | (none, _) =>
        some (none, ["missing Javadoc-style Purpose header in <" ++ tag ++ "> block"])

/-- Model of extract_vue_purpose in atlas.py: the script tag is tried, then
the style tag, and when neither opening tag occurs the combined missing
message is produced. -/
def extract_vue_purpose (lines : List String) (maxScan : Nat) :
    Option String × List String :=
  match extract_vue_tag "script" lines maxScan with
  | some r => r
  | none =>
    match extract_vue_tag "style" lines maxScan with
    | some r => r
    | none => (none, ["missing Javadoc-style Purpose header in <script> or <style> block"])

/-- Model of extract_purpose_header in atlas.py, with the file content given
as its list of lines: dispatch on the file extension to one of the three
dialects. -/
def extract_purpose_header (p : List String) (lines : List String) (config : AtlasConfig) :
    Option String × List String :=
  let ext := file_extension p
  if ext = ".py" then extract_python_docstring_purpose lines config.max_scan_lines
  else if ext = ".vue" then extract_vue_purpose lines config.max_scan_lines
  else extract_javadoc_purpose lines config.max_scan_lines

/-! Summary validation and file record building, atlas.py lines 294 to 336. -/

/-- Model of validate_summary in atlas.py: the problem strings accumulate in
source order. -/
def validate_summary (summary : String) (config : AtlasConfig) : List String :=
  (if summary = "" then ["summary is empty"] else []) ++
  (if config.summary_no_commas && summary.data.contains ',' then ["summary contains a comma"] else []) ++
  (if config.summary_ascii_only && !(summary.data.all (fun c => c.toNat < 128)) then
    ["summary contains non-ASCII characters"] else []) ++
  (if config.summary_max_length < summary.data.length then ["summary exceeds length limit"] else [])

/-- Python dict assignment on an association list: replace the value when
the key is present, append the pair otherwise. -/
def dict_set (d : List (String × α)) (k : String) (v : α) : List (String × α) :=
  if d.any (fun kv => kv.1 = k) then d.map (fun kv => if kv.1 = k then (k, v) else kv)
  else d ++ [(k, v)]

/-- Classification of a failed extraction in build_file_records: an issue
starting with a missing-Javadoc or missing-module-docstring text makes the
file missing rather than invalid. -/
def header_missing_class (header_issues : List String) : Bool :=
  header_issues.any (fun issue =>
    strStarts "missing Javadoc-style" issue || strStarts "missing module docstring" issue)

/-- Loop body of build_file_records with the three accumulators carried as
the source mutates them. -/
def build_file_records_go (config : AtlasConfig) :
    List (List String × List String) → List Record → List String →
    List (String × List String) → List Record × List String × List (String × List String)
  | [], records, missing, invalid => (records, missing, invalid)
  | (p, content) :: rest, records, missing, invalid =>
    let rel := posix p
    let (osum, header_issues) := extract_purpose_header p content config
    let failed : Bool := match osum with | none => true | some s => s = ""
    if failed then
      if header_missing_class header_issues then
        build_file_records_go config rest (records ++ [⟨rel, "MISSING", "missing"⟩])
          (missing ++ [rel]) invalid
      else
        build_file_records_go config rest (records ++ [⟨rel, "MISSING", "missing"⟩])
          missing (dict_set invalid rel header_issues)
    else
      let summary := osum.getD ""
      let issues := validate_summary summary config
      if issues.isEmpty then
        build_file_records_go config rest (records ++ [⟨rel, summary, "header"⟩]) missing invalid
      else
        build_file_records_go config rest (records ++ [⟨rel, "INVALID", "invalid"⟩])
          missing (dict_set invalid rel issues)

/-- Model of build_file_records in atlas.py: records, missing list and
invalid map over the given files with their contents. -/
def build_file_records (files : List (List String × List String)) (config : AtlasConfig) :
    List Record × List String × List (String × List String) :=
  build_file_records_go config files [] [] []

/-- The one record build_file_records emits for a single file; used to state
per-file facts about the loop. -/
def file_record_of (config : AtlasConfig) (f : List String × List String) : Record :=
  let rel := posix f.1
  let (osum, _) := extract_purpose_header f.1 f.2 config
  let failed : Bool := match osum with | none => true | some s => s = ""
  if failed then ⟨rel, "MISSING", "missing"⟩
  else
    let summary := osum.getD ""
    if (validate_summary summary config).isEmpty then ⟨rel, summary, "header"⟩
    else ⟨rel, "INVALID", "invalid"⟩

/-! Manual sidecar entries, atlas.py lines 339 to 394. -/

/-- Existence of a repository-relative posix path in a state, as the
filesystem exists check the manual reader performs against the root: the
path names a file or a directory of the state. -/
def path_exists (st : RepoState) (rel_posix : String) : Bool :=
  st.files.any (fun f => posix f.1 = rel_posix) || st.dirs.any (fun d => posix d = rel_posix)

/-- Loop body of read_manual_file_entries over the sidecar lines. The first
argument is the exists check on repository-relative paths, abstracting the
filesystem probe; the flag records being inside the manual section. -/
def read_manual_go (exists_fn : String → Bool) (config : AtlasConfig) :
    Bool → List String → List Record → List String → List (String × List String) →
    List Record × List String × List (String × List String)
  | _, [], entries, missing, invalid => (entries, missing, invalid)
  | in_manual, raw :: rest, entries, missing, invalid =>
    let line := pyStrip raw
    if line.data.isEmpty then
      read_manual_go exists_fn config in_manual rest entries missing invalid
    else if strStarts "#" line || strStarts "//" line then
      read_manual_go exists_fn config in_manual rest entries missing invalid
    else if strStarts "manual_files[" line then
      read_manual_go exists_fn config true rest entries missing invalid
    else if strStarts "folders[" line || strStarts "files[" line then
      read_manual_go exists_fn config false rest entries missing invalid
    else if !in_manual || strStarts "-" line || line.data.contains ':' then
      read_manual_go exists_fn config in_manual rest entries missing invalid
    else
      match split_once ',' line.data with
      | none => read_manual_go exists_fn config in_manual rest entries missing invalid
      | some (a, b) =>
        let rel_posix := pyStrip (String.mk a)
        let summary := pyStrip (String.mk b)
        if !exists_fn rel_posix then
          read_manual_go exists_fn config in_manual rest
            (entries ++ [⟨rel_posix, "MISSING", "missing"⟩]) (missing ++ [rel_posix]) invalid
        else
          let issues := validate_summary summary config
          if issues.isEmpty then
            read_manual_go exists_fn config in_manual rest
              (entries ++ [⟨rel_posix, summary, "manual"⟩]) missing invalid
          else
            read_manual_go exists_fn config in_manual rest
              (entries ++ [⟨rel_posix, "INVALID", "invalid"⟩]) missing
              (dict_set invalid rel_posix issues)

/-- Content of a file of the state, none when no file has the path. -/
def state_file_content (st : RepoState) (p : List String) : Option (List String) :=
  (st.files.find? (fun f => f.1 = p)).map (fun f => f.2)

/-- Model of read_manual_file_entries in atlas.py: nothing when no sidecar
is configured, an error when the configured sidecar does not exist, else the
line loop from outside the manual section. The sidecar path strings are
modelled as already-normalized posix strings. -/
def read_manual_file_entries (st : RepoState) (config : AtlasConfig) :
    List Record × List String × List (String × List String) × List String :=
  match config.manual_files_path with
  | none => ([], [], [], [])
  | some mp =>
    match state_file_content st mp with
    | none => ([], [], [], ["manual file list missing: " ++ posix mp])
    | some lines =>
      let (e, m, i) := read_manual_go (path_exists st) config false lines [] [] []
      (e, m, i, [])

/-- Record comparison by path with the Python string order. -/
def recLe (a b : Record) : Prop := strLe a.path b.path = true

/-- Sort records by path ascending, as the source sorted call with the path
key does; the keys are pairwise distinct whenever the input comes from a
dict, so any comparison sort agrees with the Python result. -/
def sort_records (rs : List Record) : List Record :=
  List.insertionSort (fun a b : Record => strLe a.path b.path = true) rs

/-- Model of merge_manual_file_records in atlas.py: a dict keyed by path is
built from the auto records, manual records are inserted only at absent
keys, and the values are sorted by path. -/
def merge_manual_file_records (records manual : List Record) : List Record :=
  let merged := records.foldl (fun d r => dict_set d r.path r) []
  let merged := manual.foldl
    (fun d r => if d.any (fun kv => kv.1 = r.path) then d else d ++ [(r.path, r)]) merged
  sort_records (merged.map (fun kv => kv.2))

/-! Folder purpose records, atlas.py lines 397 to 445. -/

/-- Line scan of read_folder_purpose: skip blank and comment lines, then
normalize the raw line, replace it by the normalized Purpose group when the
regex matches, and stop at the first nonempty summary. A processed nonblank
line always yields a nonempty summary, so reaching the end with lines left
unprocessed cannot leave a nonempty leftover value. -/
def folder_summary_scan : List String → String
  | [] => ""
  | raw :: rest =>
    let line := pyStrip raw
    if line.data.isEmpty then folder_summary_scan rest
    else if strStarts "#" line || strStarts "//" line then folder_summary_scan rest
    else
      let s0 := normalize_summary raw
      let s1 :=
        match purpose_group s0.data with
        | some g => normalize_summary (String.mk g)
        | none => s0
      if s1 = "" then folder_summary_scan rest else s1

/-- Model of read_folder_purpose in atlas.py: the marker file directly in
the folder is read; a missing file, an empty summary, a validation failure
or a validated summary each produce the source outcome. -/
def read_folder_purpose (st : RepoState) (folder : List String) (config : AtlasConfig) :
    Option String × List String :=
  match state_file_content st (folder ++ [config.purpose_filename]) with
  | none => (none, ["missing .purpose file"])
  | some lines =>
    let summary := folder_summary_scan lines
    if summary = "" then (some "", ["missing Purpose summary"])
    else
      let issues := validate_summary summary config
      if issues.isEmpty then (some summary, [])
      else (some summary, issues)

/-- Loop body of build_folder_records with its accumulators. -/
def build_folder_records_go (st : RepoState) (config : AtlasConfig) :
    List (List String) → List Record → List String → List (String × List String) →
    List Record × List String × List (String × List String)
  | [], records, missing, invalid => (records, missing, invalid)
  | folder :: rest, records, missing, invalid =>
    let rel := posix folder
    let (osum, issues) := read_folder_purpose st folder config
    if issues.isEmpty then
      build_folder_records_go st config rest
        (records ++ [⟨rel, osum.getD "", "purpose"⟩]) missing invalid
    else if issues.contains "missing .purpose file" then
      build_folder_records_go st config rest
        (records ++ [⟨rel, "MISSING", "missing"⟩]) (missing ++ [rel]) invalid
    else
      build_folder_records_go st config rest
        (records ++ [⟨rel, "INVALID", "invalid"⟩]) missing (dict_set invalid rel issues)

/-- Model of build_folder_records in atlas.py. -/
def build_folder_records (st : RepoState) (folders : List (List String)) (config : AtlasConfig) :
    List Record × List String × List (String × List String) :=
  build_folder_records_go st config folders [] [] []

/-! Duplicate detection, atlas.py lines 467 to 479. -/

/-- The grouping step of build_summary_duplicates: append the path to the
group of the summary, creating the group at the end on first sight, as the
dict setdefault call does. -/
def group_append (d : List (String × List String)) (k v : String) :
    List (String × List String) :=
  if d.any (fun kv => kv.1 = k) then
    d.map (fun kv => if kv.1 = k then (k, kv.2 ++ [v]) else kv)
  else d ++ [(k, [v])]

/-- The summary-keyed path groups of build_summary_duplicates, with the two
sentinel summaries skipped. -/
def grouped_summaries (records : List Record) : List (String × List String) :=
  records.foldl
    (fun d r =>
      if r.summary = "MISSING" || r.summary = "INVALID" then d
      else group_append d r.summary r.path) []

/-- The groups the source loop emits: sorted by summary, keeping only
groups with more than one path. -/
def dup_groups (records : List Record) : List (String × List String) :=
  (List.insertionSort (fun a b : String × List String => strLe a.1 b.1 = true)
    (grouped_summaries records)).filter (fun kv => 1 < kv.2.length)

/-- Rendering of one duplicate group in build_summary_duplicates. -/
def dup_line (kv : String × List String) : String :=
  kv.1 ++ " :: " ++ strJoin " | " (sortStrings kv.2)

/-- Model of build_summary_duplicates in atlas.py. -/
def build_summary_duplicates (records : List Record) : List String :=
  (dup_groups records).map dup_line

/-! Fingerprinting, atlas.py lines 482 to 491. -/

/-- Model of compute_file_hash in atlas.py: the digest of the newline-joined
path-pipe-summary sequence of the records. -/
def compute_file_hash (records : List Record) : String :=
  sha256_hex (strJoin "\n" (records.map (fun r => r.path ++ "|" ++ r.summary)))

/-- Model of compute_folder_hash in atlas.py: the digest of the
newline-joined relative posix folder paths. -/
def compute_folder_hash (paths : List (List String)) : String :=
  sha256_hex (strJoin "\n" (paths.map posix))

/-! Repository walker, atlas.py lines 63 to 113. The walk prunes excluded
directories, so a directory is visited exactly when it is not excluded
(exclusion is inherited along descent: an excluded ancestor excludes every
descendant by the component and prefix tests), and a file is reached exactly
when its parent directory is not excluded. -/

/-- Visit condition of a file during the walk: the parent directory path is
not excluded. -/
def file_visited (p : List String) (config : AtlasConfig) : Bool :=
  !is_excluded_rel_path (parentPath p) config

/-- Classification of a visited file as a tracked source file: not under a
non-source prefix and carrying a source extension. -/
def is_tracked_file (p : List String) (config : AtlasConfig) : Bool :=
  file_visited p config &&
  !is_under_prefixes (posix p) config.non_source_path_prefixes &&
  is_source_file p config

/-- Classification of a visited file as untracked: under a non-source
prefix, or without a source extension. -/
def is_untracked_file (p : List String) (config : AtlasConfig) : Bool :=
  file_visited p config &&
  (is_under_prefixes (posix p) config.non_source_path_prefixes || !is_source_file p config)

/-- Sort paths by their posix rendering, as the walker sorted calls do. -/
def sort_paths (l : List (List String)) : List (List String) :=
  List.insertionSort (fun a b => strLe (posix a) (posix b) = true) l

/-- Sort path-content pairs by the posix rendering of the path. -/
def sort_files (l : List (List String × List String)) : List (List String × List String) :=
  List.insertionSort (fun a b => strLe (posix a.1) (posix b.1) = true) l

/-- Tracked folders of iter_repo_paths_with_untracked: the directories not
excluded, sorted by relative posix path. -/
def tracked_folders (st : RepoState) (config : AtlasConfig) : List (List String) :=
  sort_paths (st.dirs.filter (fun d => !is_excluded_rel_path d config))

/-- Tracked source files of iter_repo_paths_with_untracked, with their
contents, sorted by relative posix path. -/
def tracked_files (st : RepoState) (config : AtlasConfig) :
    List (List String × List String) :=
  sort_files (st.files.filter (fun f => is_tracked_file f.1 config))

/-- Untracked files of iter_repo_paths_with_untracked, sorted by relative
posix path. -/
def untracked_files (st : RepoState) (config : AtlasConfig) : List (List String) :=
  sort_paths ((st.files.filter (fun f => is_untracked_file f.1 config)).map (fun f => f.1))

/-! The snapshot pipeline of build_snapshot in cli.py, restricted to the
values feeding the two hashes. -/

/-- File records of a snapshot as build_snapshot computes them: the built
records of the tracked files, merged with the manual records only when some
manual record exists, as the source truthiness guard does. -/
def snapshot_file_records (st : RepoState) (config : AtlasConfig) : List Record :=
  let (file_records, _, _) := build_file_records (tracked_files st config) config
  let (manual_records, _, _, _) := read_manual_file_entries st config
  if manual_records.isEmpty then file_records
  else merge_manual_file_records file_records manual_records

/-- File hash of one full pipeline run. -/
def snapshot_file_hash (st : RepoState) (config : AtlasConfig) : String :=
  compute_file_hash (snapshot_file_records st config)

/-- Folder hash of one full pipeline run. -/
def snapshot_folder_hash (st : RepoState) (config : AtlasConfig) : String :=
  compute_folder_hash (tracked_folders st config)

/-! Map readers and the consistency checker, cli.py lines 38 to 42 and 121
to 278, with read_overview and read_map_hashes from atlas.py lines 507 to
554. The text of the map file at the configured map path is exposed as an
optional list of lines, none standing for a missing file. -/

/-- Model of is_truthy_env in cli.py. -/
def is_truthy_env (value : Option String) : Bool :=
  match value with
  | none => false
  | some s => ["1", "true", "yes", "on"].contains (pyLower (pyStrip s))

/-- Model of format_list in atlas.py: newline-joined bullet items. -/
def format_list (items : List String) : String :=
  strJoin "\n" (items.map (fun item => " - " ++ item))

/-- Overview counters of the map header, compute_overview in atlas.py; the
five fixed keys become fields. -/
structure Overview where
  tracked_files : Nat
  tracked_folders : Nat
  source_extensions : Nat
  exclude_dir_names : Nat
  exclude_path_prefixes : Nat
deriving DecidableEq

/-- Model of compute_overview in atlas.py over the walker outputs. -/
def compute_overview (folders : List (List String)) (files : List (List String × List String))
    (config : AtlasConfig) : Overview :=
  ⟨files.length, folders.length, config.source_extensions.length,
   config.exclude_dir_names.length, config.exclude_path_prefixes.length⟩

/-- Partially parsed overview: each key optionally assigned. -/
structure POverview where
  tracked_files : Option Nat
  tracked_folders : Option Nat
  source_extensions : Option Nat
  exclude_dir_names : Option Nat
  exclude_path_prefixes : Option Nat

/-- Assignment of one parsed overview key. -/
def poverview_set (acc : POverview) (key : String) (v : Nat) : POverview :=
  if key = "tracked_files" then { acc with tracked_files := some v }
  else if key = "tracked_folders" then { acc with tracked_folders := some v }
  else if key = "source_extensions" then { acc with source_extensions := some v }
  else if key = "exclude_dir_names" then { acc with exclude_dir_names := some v }
  else { acc with exclude_path_prefixes := some v }

/-- The five overview keys in their fixed order. -/
def overview_key_order : List String :=
  ["tracked_files", "tracked_folders", "source_extensions",
   "exclude_dir_names", "exclude_path_prefixes"]

/-- Completion check after the overview token loop. -/
def poverview_close (acc : POverview) : Option Overview :=
  match acc.tracked_files, acc.tracked_folders, acc.source_extensions,
      acc.exclude_dir_names, acc.exclude_path_prefixes with
  | some a, some b, some c, some d, some e => some ⟨a, b, c, d, e⟩
  | _, _, _, _, _ => none

/-- Token loop of read_overview: each token must split at an equals sign
into a known key and a digit value; unknown or malformed tokens abort with
the source message, and a missing key after the loop aborts as well. -/
def read_overview_tokens : List String → POverview → Option Overview × List String
  | [], acc =>
    match poverview_close acc with
    | some o => (some o, [])
    | none => (none, ["overview is missing required keys"])
  | t :: ts, acc =>
    match split_once '=' t.data with
    | none => (none, ["overview line is malformed"])
    | some (k, v) =>
      let key := String.mk k
      if !overview_key_order.contains key then (none, ["overview contains unknown keys"])
      else if !pyIsDigits v then (none, ["overview values must be integers"])
      else read_overview_tokens ts (poverview_set acc key (natOfDigits v))

/-- Line loop of read_overview: the first stripped line starting with the
overview marker is parsed and decides the outcome. -/
def read_overview_lines : List String → Option Overview × List String
  | [] => (none, ["overview line is missing"])
  | raw :: rest =>
    let line := pyStrip raw
    if strStarts "overview:" line then
      let payload := pyStrip (String.mk ((split_once ':' line.data).getD ([], [])).2)
      if payload = "" then (none, ["overview line is empty"])
      else read_overview_tokens (split_ws payload) ⟨none, none, none, none, none⟩
    else read_overview_lines rest

/-- Model of read_overview in atlas.py over the optional map file lines. -/
def read_overview (map_lines : Option (List String)) : Option Overview × List String :=
  match map_lines with
  | none => (none, ["atlas map is missing"])
  | some lines => read_overview_lines lines

/-- Value of a hash line: the part after the first colon, stripped, with
double quotes stripped. -/
def hash_line_value (line : String) : String :=
  stripQuotes (pyStrip (String.mk ((split_once ':' line.data).getD ([], [])).2))

/-- Model of read_map_hashes in atlas.py: the last file-hash line and the
last folder-hash line win. -/
def read_map_hashes (map_lines : Option (List String)) : Option String × Option String :=
  match map_lines with
  | none => (none, none)
  | some lines =>
    lines.foldl
      (fun acc raw =>
        let line := pyStrip raw
        let acc1 := if strStarts "file_hash:" line then (some (hash_line_value line), acc.2) else acc
        if strStarts "folder_hash:" line then (acc1.1, some (hash_line_value line)) else acc1)
      (none, none)

/-- Sort dict items by key, as sorted applied to dict items with pairwise
distinct keys. -/
def sort_items (d : List (String × List String)) : List (String × List String) :=
  List.insertionSort (fun a b : String × List String => strLe a.1 b.1 = true) d

/-- Lint flags of the lint subcommand. -/
structure LintFlags where
  strict_folders : Bool
  report_untracked : Bool
  strict_untracked : Bool

/-- Ambient environment variables run_lint consults. -/
structure LintEnv where
  ci : Option String
  allow_untracked : Option String

/-- Untracked-file partition of the report block of run_lint: a file listed
manually is allowed; an asset file outside every allowed asset root is
disallowed regardless of other allowlisting; otherwise the untracked
allowlist decides. Only the disallowed side feeds an error. -/
def disallowed_untracked (st : RepoState) (config : AtlasConfig)
    (manual_paths : List String) : List (List String) :=
  (untracked_files st config).filter (fun p =>
    let rel_posix := posix p
    if manual_paths.contains rel_posix then false
    else if is_asset_file p config && !is_under_prefixes rel_posix config.asset_allowed_prefixes then
      true
    else !is_allowed_untracked p config)

/-- The fixed full-line messages run_lint can accumulate before the hash
comparison: the section headers, the untracked alert, and the overview
outcomes. Every other line accumulated before the hash comparison is an
indented item and starts with a space. -/
def lint_fixed_msgs : List String :=
  ["Manual file list errors:", "Missing manual file entries:",
   "Invalid manual file summaries:", "Missing Purpose headers:",
   "Invalid Purpose headers:", "Invalid folder Purpose summaries:",
   "Missing folder Purpose files:", "Untracked files detected.",
   "Atlas map missing overview. Run: projectatlas map",
   "Atlas map overview invalid. Run: projectatlas map",
   "Atlas map overview stale. Run: projectatlas map"]

/-- The overview block of run_lint: a missing overview, an overview whose
parse raised issues, and an overview differing from the expected one each
contribute their message. -/
def overview_seg (oov : Option Overview) (oiss : List String) (exp : Overview) :
    List String :=
  match oov with
  | none => ["Atlas map missing overview. Run: projectatlas map"]
  | some ov =>
    if !oiss.isEmpty then ["Atlas map overview invalid. Run: projectatlas map"]
    else if ov ≠ exp then ["Atlas map overview stale. Run: projectatlas map"]
    else []

/-- The errors run_lint accumulates before the hash comparison, in source
append order. The map file content stands for the text read from the
configured map path. -/
def run_lint_pre_errors (st : RepoState) (config : AtlasConfig) (flags : LintFlags)
    (env : LintEnv) (map_lines : Option (List String)) : List String :=
  let files := tracked_files st config
  let folders := tracked_folders st config
  let (_, missing_headers, invalid_headers) := build_file_records files config
  let (manual_records, manual_missing, manual_invalid, manual_errors) :=
    read_manual_file_entries st config
  let manual_paths := manual_records.map (fun r => r.path)
  let (_, missing_folders, invalid_folders) := build_folder_records st folders config
  let enforce0 := flags.strict_untracked
  let enforce1 :=
    if flags.report_untracked && !enforce0 then !is_truthy_env env.ci else enforce0
  let enforce := if is_truthy_env env.allow_untracked then false else enforce1
  let disallowed := disallowed_untracked st config manual_paths
  let (map_overview, overview_issues) := read_overview map_lines
  let expected_overview := compute_overview folders files config
  (if !manual_errors.isEmpty then
    ["Manual file list errors:", format_list manual_errors] else []) ++
  (if !manual_missing.isEmpty then
    ["Missing manual file entries:", format_list manual_missing] else []) ++
  (if !manual_invalid.isEmpty then
    ["Invalid manual file summaries:", format_list (manual_invalid.map (fun kv => kv.1))] else []) ++
  (if !missing_headers.isEmpty then
    ["Missing Purpose headers:", format_list missing_headers] else []) ++
  (if !invalid_headers.isEmpty then
    "Invalid Purpose headers:" ::
      (sort_items invalid_headers).map
        (fun kv => " - " ++ kv.1 ++ ": " ++ strJoin ", " kv.2) else []) ++
  (if !invalid_folders.isEmpty then
    "Invalid folder Purpose summaries:" ::
      (sort_items invalid_folders).map
        (fun kv => " - " ++ kv.1 ++ ": " ++ strJoin ", " kv.2) else []) ++
  (if flags.strict_folders && !missing_folders.isEmpty then
    ["Missing folder Purpose files:", format_list missing_folders] else []) ++
  (if flags.report_untracked && enforce && !disallowed.isEmpty then
    ["Untracked files detected."] else []) ++
  overview_seg map_overview overview_issues expected_overview

/-- The hash segment closing run_lint: both hashes must be stored, and each
stored hash is then compared independently against its expected value. -/
def run_lint_hash_errors (stored : Option String × Option String)
    (expected_file_hash expected_folder_hash : String) : List String :=
  match stored with
  | (some fh, some gh) =>
    (if fh ≠ expected_file_hash then ["Atlas map file hash stale. Run: projectatlas map"] else []) ++
    (if gh ≠ expected_folder_hash then ["Atlas map folder hash stale. Run: projectatlas map"] else [])
  | _ => ["Atlas map missing hashes. Run: projectatlas map"]

/-- The error list run_lint accumulates, in source append order: the
pre-hash errors followed by the hash segment, where the expected hashes are
the pipeline hashes of the current state, exactly as run_lint recomputes
them from the merged file records and the tracked folders. -/
def run_lint_errors (st : RepoState) (config : AtlasConfig) (flags : LintFlags)
    (env : LintEnv) (map_lines : Option (List String)) : List String :=
  run_lint_pre_errors st config flags env map_lines ++
  run_lint_hash_errors (read_map_hashes map_lines)
    (snapshot_file_hash st config) (snapshot_folder_hash st config)

/-- Model of run_lint in cli.py restricted to its outcome: one when any
error accumulated, zero otherwise. -/
def run_lint (st : RepoState) (config : AtlasConfig) (flags : LintFlags)
    (env : LintEnv) (map_lines : Option (List String)) : Nat :=
  if (run_lint_errors st config flags env map_lines).isEmpty then 0 else 1

/-- The records the manual-sidecar line loop emits, without the other
accumulators: the same state machine as read_manual_go restricted to its
entries output, used to characterize that loop. -/
def manual_line_records (exists_fn : String → Bool) (config : AtlasConfig) :
    Bool → List String → List Record
  | _, [] => []
  | in_manual, raw :: rest =>
    let line := pyStrip raw
    if line.data.isEmpty then manual_line_records exists_fn config in_manual rest
    else if strStarts "#" line || strStarts "//" line then
      manual_line_records exists_fn config in_manual rest
    else if strStarts "manual_files[" line then manual_line_records exists_fn config true rest
    else if strStarts "folders[" line || strStarts "files[" line then
      manual_line_records exists_fn config false rest
    else if !in_manual || strStarts "-" line || line.data.contains ':' then
      manual_line_records exists_fn config in_manual rest
    else
      match split_once ',' line.data with
      | none => manual_line_records exists_fn config in_manual rest
      | some (a, b) =>
        let rel_posix := pyStrip (String.mk a)
        let summary := pyStrip (String.mk b)
        if !exists_fn rel_posix then
          ⟨rel_posix, "MISSING", "missing"⟩ :: manual_line_records exists_fn config in_manual rest
        else if (validate_summary summary config).isEmpty then
          ⟨rel_posix, summary, "manual"⟩ :: manual_line_records exists_fn config in_manual rest
        else
          ⟨rel_posix, "INVALID", "invalid"⟩ :: manual_line_records exists_fn config in_manual rest

/-- The one record build_folder_records emits for a single folder; used to
state per-folder facts about that loop. -/
def folder_record_of (st : RepoState) (config : AtlasConfig) (folder : List String) : Record :=
  let rel := posix folder
  let (osum, issues) := read_folder_purpose st folder config
  if issues.isEmpty then ⟨rel, osum.getD "", "purpose"⟩
  else if issues.contains "missing .purpose file" then ⟨rel, "MISSING", "missing"⟩
  else ⟨rel, "INVALID", "invalid"⟩

/-- A small concrete configuration with the default validation thresholds,
used by the concrete evaluations below. -/
def cfg0 : AtlasConfig :=
  { source_extensions := [".py", ".vue"], exclude_dir_names := [], exclude_dir_suffixes := [],
    exclude_path_prefixes := [], non_source_path_prefixes := [],
    allowed_untracked_filenames := [".purpose"], untracked_allowlist_dir_prefixes := [],
    untracked_allowlist_files := [], asset_allowed_prefixes := [], asset_extensions := [],
    max_scan_lines := 80, summary_max_length := 140, summary_ascii_only := true,
    summary_no_commas := true, purpose_filename := ".purpose", manual_files_path := none }

/-- A configuration with a manual sidecar list at the repository root. -/
def cfgM : AtlasConfig := { cfg0 with manual_files_path := some ["m.toon"] }

/-- A repository state whose sidecar holds one well-shaped manual line whose
summary contains a colon. -/
def stM : RepoState :=
  ⟨[[]], [(["m.toon"], ["manual_files[]:", "x.txt, has: colon"]), (["x.txt"], [])]⟩

/-- Pointwise comparison of two file lists: equal paths in the same order,
with equal contents wherever the path is classified a tracked source file.
Two states whose directories agree and whose file lists are related this way
present the same file tree and differ only in the contents of untracked
files. -/
def files_match (config : AtlasConfig) : List (List String × List String) →
    List (List String × List String) → Bool
  | [], [] => true
  | f :: fs, g :: gs =>
    decide (f.1 = g.1) &&
    (if is_tracked_file f.1 config then decide (f.2 = g.2) else true) &&
    files_match config fs gs
  | _, _ => false

/-- The two repository states differ at most in the contents of untracked
files: same directories, same file paths, equal contents on tracked source
files. -/
def differ_only_in_untracked (a b : RepoState) (config : AtlasConfig) : Bool :=
  decide (a.dirs = b.dirs) && files_match config a.files b.files

/-- A state whose manual sidecar lists the untracked file with one summary. -/
def stA : RepoState :=
  ⟨[[]], [(["m.toon"], ["manual_files[]:", "x.txt, Alpha"]), (["x.txt"], ["payload"])]⟩

/-- The same state except for the content of the untracked sidecar list. -/
def stB : RepoState :=
  ⟨[[]], [(["m.toon"], ["manual_files[]:", "x.txt, Beta"]), (["x.txt"], ["payload"])]⟩

/-- The same state as stA except for the content of a plain untracked file
that is not the sidecar. -/
def stC : RepoState :=
  ⟨[[]], [(["m.toon"], ["manual_files[]:", "x.txt, Alpha"]), (["x.txt"], ["changed"])]⟩

/-! Shape predicates used to state normalization facts. -/

/-- The string has no leading whitespace. -/
def no_lead_ws (s : String) : Bool :=
  match s.data with
  | [] => true
  | c :: _ => !pyWs c

/-- The string has no trailing whitespace. -/
def no_trail_ws (s : String) : Bool :=
  match s.data.getLast? with
  | none => true
  | some c => !pyWs c

/-- The character list holds no two consecutive whitespace characters. -/
def no_ws_run : List Char → Bool
  | c :: d :: rest => !(pyWs c && pyWs d) && no_ws_run (d :: rest)
  | _ => true

/-- Canonical-form check for whitespace runs: every whitespace character is
a single space not preceded by whitespace; the flag records whether the
previous character was whitespace. -/
def canonAux : Bool → List Char → Bool
  | _, [] => true
  | b, c :: cs => if pyWs c then (c = ' ' && !b && canonAux true cs) else canonAux false cs

/-- The extraction outcome that makes build_file_records classify a file
missing: extraction fails and some issue carries a missing-header text. -/
def file_is_missing (config : AtlasConfig) (f : List String × List String) : Bool :=
  let (osum, header_issues) := extract_purpose_header f.1 f.2 config
  (match osum with | none => true | some s => s = "") && header_missing_class header_issues

/-- An empty repository state: no directories and no files. -/
def st0 : RepoState := ⟨[], []⟩

/-- Lint flags with every switch off. -/
def flags0 : LintFlags := ⟨false, false, false⟩

/-- An empty ambient environment. -/
def env0 : LintEnv := ⟨none, none⟩

/-- A tiny map file carrying only the two hash lines. -/
def mlC3 : List String := ["file_hash: aaa", "folder_hash: bbb"]

/-! Theorems. String-order facts first. -/

theorem strLeCh_total (a b : List Char) : strLeCh a b || strLeCh b a := by
  induction a generalizing b with
  | nil => simp [strLeCh]
  | cons x xs ih =>
    cases b with
    | nil => simp [strLeCh]
    | cons y ys =>
      simp only [strLeCh]
      rcases Nat.lt_trichotomy x.toNat y.toNat with h | h | h
      · simp [h]
      · simp [h, Nat.lt_irrefl, ih ys]
      · simp [h, Nat.lt_asymm h]

theorem strLeCh_trans : ∀ (a b c : List Char),
    strLeCh a b = true → strLeCh b c = true → strLeCh a c = true
  | [], _, _, _, _ => rfl
  | _ :: _, [], _, h1, _ => by simp [strLeCh] at h1
  | _ :: _, _ :: _, [], _, h2 => by simp [strLeCh] at h2
  | x :: xs, y :: ys, z :: zs, h1, h2 => by
    simp only [strLeCh] at h1 h2 ⊢
    split at h1
    case isTrue hxy =>
      split at h2
      case isTrue hyz => simp [Nat.lt_trans hxy hyz]
      case isFalse hyz =>
        split at h2
        case isTrue => simp at h2
        case isFalse hzy =>
          have : x.toNat < z.toNat := by omega
          simp [this]
    case isFalse hxy =>
      split at h1
      case isTrue => simp at h1
      case isFalse hyx =>
        split at h2
        case isTrue hyz =>
          have : x.toNat < z.toNat := by omega
          simp [this]
        case isFalse hyz =>
          split at h2
          case isTrue => simp at h2
          case isFalse hzy =>
            have hnlt : ¬ x.toNat < z.toNat := by omega
            have hngt : ¬ z.toNat < x.toNat := by omega
            simp only [hnlt, hngt, if_false]
            exact strLeCh_trans xs ys zs h1 h2

theorem strLe_total (a b : String) : strLe a b || strLe b a := strLeCh_total a.data b.data

theorem strLe_trans (a b c : String) (h1 : strLe a b = true) (h2 : strLe b c = true) :
    strLe a c = true := strLeCh_trans a.data b.data c.data h1 h2

/-! Normalization facts backing the idempotence claim. -/

theorem canonAux_sqWs (l : List Char) : ∀ b, canonAux b (sqWs b l) = true := by
  induction l with
  | nil => intro b; rfl
  | cons c cs ih =>
    intro b
    by_cases hc : pyWs c = true
    · cases b with
      | true => simp only [sqWs, hc, if_true, if_pos]; exact ih true
      | false =>
        simp only [sqWs, hc, if_true, if_pos, Bool.not_false]
        have hsp : pyWs ' ' = true := by decide
        simp only [canonAux, hsp, if_pos]
        simpa using ih true
    · have hc' : pyWs c = false := by simpa using hc
      cases b <;>
        simp only [sqWs, hc', Bool.false_eq_true, if_false, canonAux] <;>
        exact ih false

theorem sqWs_eq_of_canonAux : ∀ (l : List Char) (b : Bool),
    canonAux b l = true → sqWs b l = l
  | [], _, _ => rfl
  | c :: cs, b, h => by
    by_cases hc : pyWs c = true
    · simp only [canonAux, hc, if_pos] at h
      simp only [Bool.and_eq_true] at h
      obtain ⟨⟨hsp, hb⟩, h2⟩ := h
      have hb' : b = false := by cases b <;> simp_all
      subst hb'
      have hc' : c = ' ' := by simpa using hsp
      simp only [sqWs, hc, if_pos, if_false, Bool.false_eq_true]
      rw [sqWs_eq_of_canonAux cs true h2, hc']
    · have hc' : pyWs c = false := by simpa using hc
      simp only [canonAux, hc', Bool.false_eq_true, if_false] at h
      simp only [sqWs, hc', Bool.false_eq_true, if_false]
      rw [sqWs_eq_of_canonAux cs false h]

theorem no_ws_run_of_canonAux : ∀ (l : List Char) (b : Bool),
    canonAux b l = true → no_ws_run l = true
  | [], _, _ => rfl
  | [_], _, _ => rfl
  | c :: d :: rest, b, h => by
    by_cases hc : pyWs c = true
    · simp only [canonAux, hc, if_pos] at h
      simp only [Bool.and_eq_true] at h
      obtain ⟨_, h2⟩ := h
      have hd : pyWs d = false := by
        by_contra hd'
        have hd'' : pyWs d = true := by simpa using hd'
        simp [canonAux, hd''] at h2
      simp only [no_ws_run, hd, Bool.and_false, Bool.not_false, Bool.true_and]
      exact no_ws_run_of_canonAux (d :: rest) true h2
    · have hc' : pyWs c = false := by simpa using hc
      simp only [canonAux, hc', Bool.false_eq_true, if_false] at h
      simp only [no_ws_run, hc', Bool.false_and, Bool.not_false, Bool.true_and]
      exact no_ws_run_of_canonAux (d :: rest) false h

theorem head_dropWhile {p : Char → Bool} : ∀ (l : List Char) (c : Char),
    (l.dropWhile p).head? = some c → p c = false
  | [], c, h => by simp [List.dropWhile] at h
  | x :: xs, c, h => by
    by_cases hx : p x = true
    · rw [List.dropWhile_cons_of_pos hx] at h
      exact head_dropWhile xs c h
    · have hx' : p x = false := by simpa using hx
      rw [List.dropWhile_cons_of_neg (by simp [hx'])] at h
      simp only [List.head?_cons, Option.some.injEq] at h
      exact h ▸ hx'

theorem dropTrail_isPrefix (p : Char → Bool) (l : List Char) : dropTrail p l <+: l := by
  have h : l.reverse.dropWhile p <:+ l.reverse := List.dropWhile_suffix p
  have h2 := List.reverse_prefix.mpr h
  simpa [dropTrail] using h2

theorem head_of_isPrefix {l s : List Char} (h : s <+: l) (c : Char)
    (hc : s.head? = some c) : l.head? = some c := by
  rcases h with ⟨t, ht⟩
  cases s with
  | nil => simp at hc
  | cons x xs =>
    simp only [List.head?_cons, Option.some.injEq] at hc
    subst ht; simp [hc]

theorem getLast_dropTrail {p : Char → Bool} (l : List Char) (c : Char)
    (h : (dropTrail p l).getLast? = some c) : p c = false := by
  have h2 : (l.reverse.dropWhile p).head? = some c := by
    rw [dropTrail] at h
    rwa [List.getLast?_reverse] at h
  exact head_dropWhile _ _ h2

theorem pyStrip_head (s : String) (c : Char) (h : (pyStrip s).data.head? = some c) :
    pyWs c = false := by
  have hp : (pyStrip s).data <+: s.data.dropWhile pyWs := by
    simpa [pyStrip] using dropTrail_isPrefix pyWs (s.data.dropWhile pyWs)
  exact head_dropWhile _ _ (head_of_isPrefix hp c h)

theorem pyStrip_last (s : String) (c : Char) (h : (pyStrip s).data.getLast? = some c) :
    pyWs c = false := by
  exact getLast_dropTrail _ _ (by simpa [pyStrip] using h)

theorem getLast?_cons_some {l : List Char} {c : Char} (a : Char) (h : l.getLast? = some c) :
    (a :: l).getLast? = some c := by
  cases l with
  | nil => simp at h
  | cons x xs => rw [List.getLast?_cons_cons]; exact h

theorem sqWs_getLast : ∀ (l : List Char) (b : Bool) (c : Char),
    l.getLast? = some c → pyWs c = false → (sqWs b l).getLast? = some c
  | [], _, _, h, _ => by simp at h
  | [x], b, c, h, hc => by
    simp only [List.getLast?_singleton, Option.some.injEq] at h
    subst h
    simp [sqWs, hc]
  | x :: y :: rest, b, c, h, hc => by
    rw [List.getLast?_cons_cons] at h
    by_cases hx : pyWs x = true
    · cases b with
      | true =>
        simp only [sqWs, hx, if_pos, if_true]
        exact sqWs_getLast (y :: rest) true c h hc
      | false =>
        simp only [sqWs, hx, if_pos, Bool.false_eq_true, if_false]
        exact getLast?_cons_some ' ' (sqWs_getLast (y :: rest) true c h hc)
    · have hx' : pyWs x = false := by simpa using hx
      simp only [sqWs, hx', Bool.false_eq_true, if_false]
      exact getLast?_cons_some x (sqWs_getLast (y :: rest) false c h hc)

theorem sqWs_head_of_head {l : List Char} {c : Char} (h : l.head? = some c)
    (hc : pyWs c = false) : (sqWs false l).head? = some c := by
  cases l with
  | nil => simp at h
  | cons x xs =>
    simp only [List.head?_cons, Option.some.injEq] at h
    subst h
    simp [sqWs, hc]

theorem canonAux_true_of_false {l : List Char} (h : canonAux false l = true)
    (hh : ∀ c, l.head? = some c → pyWs c = false) : canonAux true l = true := by
  cases l with
  | nil => rfl
  | cons x xs =>
    have hx : pyWs x = false := hh x (by simp)
    simpa [canonAux, hx] using (by simpa [canonAux, hx] using h : canonAux false xs = true)

theorem dropWhile_eq_self_of_head {p : Char → Bool} {l : List Char}
    (hh : ∀ c, l.head? = some c → p c = false) : l.dropWhile p = l := by
  cases l with
  | nil => rfl
  | cons x xs =>
    have hx : p x = false := hh x (by simp)
    simp [List.dropWhile_cons, hx]

theorem dropTrail_eq_self_of_last {p : Char → Bool} {l : List Char}
    (hl : ∀ c, l.getLast? = some c → p c = false) : dropTrail p l = l := by
  have hh : ∀ c, l.reverse.head? = some c → p c = false := by
    intro c hc
    exact hl c (by rwa [List.head?_reverse] at hc)
  rw [dropTrail, dropWhile_eq_self_of_head hh, List.reverse_reverse]

theorem normalize_canon (s : String) :
    canonAux false (normalize_summary s).data = true ∧
    (∀ c, (normalize_summary s).data.head? = some c → pyWs c = false) ∧
    (∀ c, (normalize_summary s).data.getLast? = some c → pyWs c = false) := by
  refine ⟨?_, ?_, ?_⟩
  · simpa [normalize_summary] using canonAux_sqWs (pyStrip s).data false
  · intro c hc
    simp only [normalize_summary] at hc
    cases hm : (pyStrip s).data with
    | nil => rw [hm] at hc; simp [sqWs] at hc
    | cons x xs =>
      have hx : pyWs x = false := pyStrip_head s x (by rw [hm]; simp)
      rw [hm] at hc
      simp only [sqWs, hx, Bool.false_eq_true, if_false, List.head?_cons,
        Option.some.injEq] at hc
      exact hc ▸ hx
  · intro c hc
    simp only [normalize_summary] at hc
    cases hm : (pyStrip s).data.getLast? with
    | none =>
      have : (pyStrip s).data = [] := by
        cases h : (pyStrip s).data with
        | nil => rfl
        | cons x xs => rw [h] at hm; simp [List.getLast?_eq_getLast] at hm
      rw [this] at hc; simp [sqWs] at hc
    | some d =>
      have hd : pyWs d = false := pyStrip_last s d hm
      have := sqWs_getLast (pyStrip s).data false d hm hd
      rw [this] at hc
      cases hc
      exact hd

theorem normalize_summary_idem (s : String) :
    normalize_summary (normalize_summary s) = normalize_summary s := by
  obtain ⟨hcanon, hhead, hlast⟩ := normalize_canon s
  have hstrip : pyStrip (normalize_summary s) = normalize_summary s := by
    have h1 : (normalize_summary s).data.dropWhile pyWs = (normalize_summary s).data :=
      dropWhile_eq_self_of_head hhead
    have h2 : dropTrail pyWs (normalize_summary s).data = (normalize_summary s).data :=
      dropTrail_eq_self_of_last hlast
    simp only [pyStrip, h1, h2]
  have hsq : sqWs false (normalize_summary s).data = (normalize_summary s).data :=
    sqWs_eq_of_canonAux _ false hcanon
  calc normalize_summary (normalize_summary s)
      = String.mk (sqWs false (pyStrip (normalize_summary s)).data) := rfl
    _ = String.mk (sqWs false (normalize_summary s).data) := by rw [hstrip]
    _ = String.mk (normalize_summary s).data := by rw [hsq]
    _ = normalize_summary s := rfl

theorem normalize_summary_shape (s : String) :
    no_lead_ws (normalize_summary s) = true ∧ no_trail_ws (normalize_summary s) = true ∧
    no_ws_run (normalize_summary s).data = true := by
  obtain ⟨hcanon, hhead, hlast⟩ := normalize_canon s
  refine ⟨?_, ?_, no_ws_run_of_canonAux _ false hcanon⟩
  · simp only [no_lead_ws]
    cases h : (normalize_summary s).data with
    | nil => rfl
    | cons x xs => simpa using hhead x (by rw [h]; simp)
  · simp only [no_trail_ws]
    cases h : (normalize_summary s).data.getLast? with
    | none => rfl
    | some c => simpa using hlast c h

theorem extract_purpose_normalized : ∀ (lines : List String) (t : String),
    extract_purpose_from_lines lines = some t → ∃ g, t = normalize_summary g
  | [], _, h => by simp [extract_purpose_from_lines] at h
  | raw :: rest, t, h => by
    simp only [extract_purpose_from_lines] at h
    cases hg : purpose_group (clean_comment_line raw).data with
    | some g =>
      rw [hg] at h
      exact ⟨String.mk g, by simpa using h.symm⟩
    | none =>
      rw [hg] at h
      exact extract_purpose_normalized rest t h

/-- C10: normalize_summary is idempotent, and consequently every summary
returned by extract_purpose_from_lines has no leading or trailing
whitespace and no run of two or more consecutive whitespace characters. -/
theorem C10_normalize_idempotent (s : String) (lines : List String) (t : String) :
    normalize_summary (normalize_summary s) = normalize_summary s ∧
    (extract_purpose_from_lines lines = some t →
      no_lead_ws t = true ∧ no_trail_ws t = true ∧ no_ws_run t.data = true) := by
  refine ⟨normalize_summary_idem s, fun h => ?_⟩
  obtain ⟨g, rfl⟩ := extract_purpose_normalized lines t h
  exact normalize_summary_shape g

theorem C10_witness :
    normalize_summary (normalize_summary " a  b ") = normalize_summary " a  b " ∧
    (no_lead_ws "a b" = true ∧ no_trail_ws "a b" = true ∧ no_ws_run "a b".data = true) :=
  ⟨(C10_normalize_idempotent " a  b " ["Purpose:  a  b "] "a b").1,
   (C10_normalize_idempotent " a  b " ["Purpose:  a  b "] "a b").2 (by decide)⟩

/-- C1, evaluation at the failing input: a tracked Python file whose module
docstring never terminates is classified invalid by build_file_records (the
issue list lands in the invalid map), yet the emitted record carries the
summary MISSING and the source kind missing rather than INVALID and
invalid. -/
theorem C1_invalid_class_still_missing_record :
    build_file_records [(["m.py"], ["\"\"\"", "Purpose: x"])] cfg0 =
      ([⟨"m.py", "MISSING", "missing"⟩], [],
       [("m.py", ["unterminated module docstring"])]) := by
  decide

/-! Characterization of the build_file_records loop: each file contributes
exactly one record, and the missing list collects the missing-classified
files in order. -/

theorem bfr_go_records (config : AtlasConfig) : ∀ (files : List (List String × List String))
    (recs : List Record) (miss : List String) (inv : List (String × List String)),
    (build_file_records_go config files recs miss inv).1 =
      recs ++ files.map (file_record_of config)
  | [], recs, miss, inv => by simp [build_file_records_go]
  | (p, content) :: rest, recs, miss, inv => by
    rcases hx : extract_purpose_header p content config with ⟨osum, hissues⟩
    simp only [build_file_records_go, List.map_cons, file_record_of, hx]
    cases osum with
    | none =>
      by_cases hm : header_missing_class hissues = true <;>
        simp [hm, bfr_go_records config rest]
    | some s =>
      by_cases hs : s = ""
      · by_cases hm : header_missing_class hissues = true <;>
          simp [hs, hm, bfr_go_records config rest]
      · by_cases hv : (validate_summary s config).isEmpty = true <;>
          simp [hs, hv, bfr_go_records config rest]

theorem bfr_go_missing (config : AtlasConfig) : ∀ (files : List (List String × List String))
    (recs : List Record) (miss : List String) (inv : List (String × List String)),
    (build_file_records_go config files recs miss inv).2.1 =
      miss ++ (files.filter (file_is_missing config)).map (fun f => posix f.1)
  | [], recs, miss, inv => by simp [build_file_records_go]
  | (p, content) :: rest, recs, miss, inv => by
    rcases hx : extract_purpose_header p content config with ⟨osum, hissues⟩
    simp only [build_file_records_go, List.filter_cons, file_is_missing, hx]
    cases osum with
    | none =>
      by_cases hm : header_missing_class hissues = true <;>
        simp [hm, bfr_go_missing config rest]
    | some s =>
      by_cases hs : s = ""
      · by_cases hm : header_missing_class hissues = true <;>
          simp [hs, hm, bfr_go_missing config rest]
      · by_cases hv : (validate_summary s config).isEmpty = true <;>
          simp [hs, hv, bfr_go_missing config rest]

theorem build_file_records_records (config : AtlasConfig)
    (files : List (List String × List String)) :
    (build_file_records files config).1 = files.map (file_record_of config) := by
  simpa [build_file_records] using bfr_go_records config files [] [] []

theorem build_file_records_missing (config : AtlasConfig)
    (files : List (List String × List String)) :
    (build_file_records files config).2.1 =
      (files.filter (file_is_missing config)).map (fun f => posix f.1) := by
  simpa [build_file_records] using bfr_go_missing config files [] [] []

/-! Facts about the extraction dialects used by the per-claim theorems. -/

theorem validate_summary_empty_ne (config : AtlasConfig) :
    validate_summary "" config ≠ [] := by
  simp [validate_summary]

theorem py_extract_from_lines (lines : List String) (m : Nat) (s : String) (iss : List String)
    (h : extract_python_docstring_purpose lines m = (some s, iss)) :
    (∃ ls, extract_purpose_from_lines ls = some s) ∧ s ≠ "" ∧ iss = [] := by
  unfold extract_python_docstring_purpose at h
  rcases hskip : py_skip 0 lines with ⟨i, ls⟩
  rw [hskip] at h
  cases ls with
  | nil => simp at h
  | cons l rest =>
    simp only at h
    cases hopen : py_docstring_open (pyStrip l) with
    | none => rw [hopen] at h; simp at h
    | some dr =>
      obtain ⟨delim, remainder⟩ := dr
      rw [hopen] at h
      simp only at h
      by_cases hin : listInfix delim.data remainder.data = true
      · rw [if_pos hin] at h
        cases hep : extract_purpose_from_lines
            [String.mk (split_before delim.data remainder.data)] with
        | none => simp only [hep] at h; simp at h
        | some s0 =>
          simp only [hep] at h
          by_cases hs0 : s0 = ""
          · rw [if_pos hs0] at h; simp at h
          · rw [if_neg hs0] at h
            simp only [Prod.mk.injEq, Option.some.injEq] at h
            exact ⟨⟨_, by rw [hep, h.1]⟩, h.1 ▸ hs0, h.2.symm⟩
      · rw [if_neg hin] at h
        cases hcol : py_block_collect delim m (i + 1) rest with
        | none => simp only [hcol] at h; simp at h
        | some blk =>
          simp only [hcol] at h
          cases hep : extract_purpose_from_lines blk with
          | none => simp only [hep] at h; simp at h
          | some s0 =>
            simp only [hep] at h
            by_cases hs0 : s0 = ""
            · rw [if_pos hs0] at h; simp at h
            · rw [if_neg hs0] at h
              simp only [Prod.mk.injEq, Option.some.injEq] at h
              exact ⟨⟨_, by rw [hep, h.1]⟩, h.1 ▸ hs0, h.2.symm⟩

/-- C6: a file whose header extraction succeeds with a summary accepted by
the validator yields a record with source kind header and that summary; the
summary is whitespace-normalized (it is the normalization of the Purpose
remainder, hence a fixed point of normalize_summary). Stated for the
module-docstring dialect the claim quotes, via the dispatch on the py
extension used by build_file_records. -/
theorem C6_header_record_from_valid_purpose (files : List (List String × List String))
    (config : AtlasConfig) (p content : List String) (s : String)
    (hmem : (p, content) ∈ files) (hext : file_extension p = ".py")
    (hex : extract_python_docstring_purpose content config.max_scan_lines = (some s, []))
    (hval : validate_summary s config = []) :
    (⟨posix p, s, "header"⟩ : Record) ∈ (build_file_records files config).1 ∧
    s = normalize_summary s := by
  have hs : s ≠ "" := by
    intro hs0
    exact validate_summary_empty_ne config (hs0 ▸ hval)
  have hdr : extract_purpose_header p content config = (some s, []) := by
    simp only [extract_purpose_header, hext, if_pos]
    exact hex
  have hrec : file_record_of config (p, content) = ⟨posix p, s, "header"⟩ := by
    simp [file_record_of, hdr, hs, hval]
  constructor
  · rw [build_file_records_records]
    exact List.mem_map.mpr ⟨(p, content), hmem, hrec⟩
  · obtain ⟨⟨ls, hls⟩, _, _⟩ := py_extract_from_lines content config.max_scan_lines s [] hex
    obtain ⟨g, rfl⟩ := extract_purpose_normalized ls s hls
    exact (normalize_summary_idem g).symm

theorem C6_witness :
    (⟨"sample.py", "Sample module.", "header"⟩ : Record) ∈
      (build_file_records [(["sample.py"],
        ["\"\"\"", "Purpose: Sample module.", "\"\"\""])] cfg0).1 ∧
    "Sample module." = normalize_summary "Sample module." :=
  C6_header_record_from_valid_purpose
    [(["sample.py"], ["\"\"\"", "Purpose: Sample module.", "\"\"\""])] cfg0
    ["sample.py"] ["\"\"\"", "Purpose: Sample module.", "\"\"\""] "Sample module."
    (by decide) (by decide) (by decide) (by decide)

/-- C9: a structured-template file whose lines hold no script and no style
opening tag extracts no summary with exactly the combined missing-header
issue, and build_file_records classifies it missing with the MISSING
sentinel summary. -/
theorem C9_vue_without_blocks_missing (files : List (List String × List String))
    (config : AtlasConfig) (p content : List String)
    (hmem : (p, content) ∈ files) (hext : file_extension p = ".vue")
    (hno : ∀ l ∈ content, vue_open_tag "script" l = false ∧ vue_open_tag "style" l = false) :
    extract_vue_purpose content config.max_scan_lines =
      (none, ["missing Javadoc-style Purpose header in <script> or <style> block"]) ∧
    (⟨posix p, "MISSING", "missing"⟩ : Record) ∈ (build_file_records files config).1 ∧
    posix p ∈ (build_file_records files config).2.1 := by
  have hfs : content.findIdx? (vue_open_tag "script") = none := by
    rw [List.findIdx?_eq_none_iff]
    exact fun l hl => (hno l hl).1
  have hft : content.findIdx? (vue_open_tag "style") = none := by
    rw [List.findIdx?_eq_none_iff]
    exact fun l hl => (hno l hl).2
  have hvue : extract_vue_purpose content config.max_scan_lines =
      (none, ["missing Javadoc-style Purpose header in <script> or <style> block"]) := by
    simp [extract_vue_purpose, extract_vue_tag, hfs, hft]
  have hdr : extract_purpose_header p content config =
      (none, ["missing Javadoc-style Purpose header in <script> or <style> block"]) := by
    have hne : file_extension p ≠ ".py" := by rw [hext]; decide
    simp only [extract_purpose_header, hext, if_neg, if_pos]
    · exact hvue
  have hrec : file_record_of config (p, content) = ⟨posix p, "MISSING", "missing"⟩ := by
    simp [file_record_of, hdr]
  have hmiss : file_is_missing config (p, content) = true := by
    simp only [file_is_missing, hdr]
    decide
  refine ⟨hvue, ?_, ?_⟩
  · rw [build_file_records_records]
    exact List.mem_map.mpr ⟨(p, content), hmem, hrec⟩
  · rw [build_file_records_missing]
    exact List.mem_map.mpr ⟨(p, content), List.mem_filter.mpr ⟨hmem, hmiss⟩, rfl⟩

theorem C9_witness :
    extract_vue_purpose ["<template>", "</template>"] cfg0.max_scan_lines =
      (none, ["missing Javadoc-style Purpose header in <script> or <style> block"]) ∧
    (⟨"c.vue", "MISSING", "missing"⟩ : Record) ∈
      (build_file_records [(["c.vue"], ["<template>", "</template>"])] cfg0).1 ∧
    "c.vue" ∈ (build_file_records [(["c.vue"], ["<template>", "</template>"])] cfg0).2.1 :=
  C9_vue_without_blocks_missing [(["c.vue"], ["<template>", "</template>"])] cfg0
    ["c.vue"] ["<template>", "</template>"] (by decide) (by decide) (by decide)

/-! Characterization of the manual-sidecar and folder loops. -/

theorem read_manual_go_entries (exists_fn : String → Bool) (config : AtlasConfig) :
    ∀ (lines : List String) (b : Bool) (es : List Record) (ms : List String)
      (iv : List (String × List String)),
    (read_manual_go exists_fn config b lines es ms iv).1 =
      es ++ manual_line_records exists_fn config b lines
  | [], b, es, ms, iv => by simp [read_manual_go, manual_line_records]
  | raw :: rest, b, es, ms, iv => by
    simp only [read_manual_go, manual_line_records]
    by_cases c1 : (pyStrip raw).data.isEmpty = true
    · simp only [if_pos c1]
      exact read_manual_go_entries exists_fn config rest b es ms iv
    simp only [if_neg c1]
    by_cases c2 : (strStarts "#" (pyStrip raw) || strStarts "//" (pyStrip raw)) = true
    · simp only [if_pos c2]
      exact read_manual_go_entries exists_fn config rest b es ms iv
    simp only [if_neg c2]
    by_cases c3 : strStarts "manual_files[" (pyStrip raw) = true
    · simp only [if_pos c3]
      exact read_manual_go_entries exists_fn config rest true es ms iv
    simp only [if_neg c3]
    by_cases c4 : (strStarts "folders[" (pyStrip raw) || strStarts "files[" (pyStrip raw)) = true
    · simp only [if_pos c4]
      exact read_manual_go_entries exists_fn config rest false es ms iv
    simp only [if_neg c4]
    by_cases c5 : (!b || strStarts "-" (pyStrip raw) || (pyStrip raw).data.contains ':') = true
    · simp only [if_pos c5]
      exact read_manual_go_entries exists_fn config rest b es ms iv
    simp only [if_neg c5]
    cases hsp : split_once ',' (pyStrip raw).data with
    | none =>
      simp only [hsp]
      exact read_manual_go_entries exists_fn config rest b es ms iv
    | some ab =>
      obtain ⟨a, b2⟩ := ab
      simp only [hsp]
      by_cases he : exists_fn (pyStrip (String.mk a)) = true
      · have he' : (!exists_fn (pyStrip (String.mk a))) = false := by simp [he]
        simp only [he', Bool.false_eq_true, if_neg, if_false]
        by_cases hv : (validate_summary (pyStrip (String.mk b2)) config).isEmpty = true
        · simp only [if_pos hv]
          rw [read_manual_go_entries exists_fn config rest]
          simp
        · simp only [if_neg hv]
          rw [read_manual_go_entries exists_fn config rest]
          simp
      · have he' : (!exists_fn (pyStrip (String.mk a))) = true := by
          simp only [Bool.not_eq_true'] at *
          simpa using he
        simp only [he', if_pos, if_true]
        rw [read_manual_go_entries exists_fn config rest]
        simp

theorem manual_line_records_validated (exists_fn : String → Bool) (config : AtlasConfig) :
    ∀ (lines : List String) (b : Bool) (r : Record),
    r ∈ manual_line_records exists_fn config b lines →
    r.source = "manual" → validate_summary r.summary config = []
  | [], b, r, hr, _ => by simp [manual_line_records] at hr
  | raw :: rest, b, r, hr, hsrc => by
    simp only [manual_line_records] at hr
    by_cases c1 : (pyStrip raw).data.isEmpty = true
    · rw [if_pos c1] at hr
      exact manual_line_records_validated exists_fn config rest b r hr hsrc
    rw [if_neg c1] at hr
    by_cases c2 : (strStarts "#" (pyStrip raw) || strStarts "//" (pyStrip raw)) = true
    · rw [if_pos c2] at hr
      exact manual_line_records_validated exists_fn config rest b r hr hsrc
    rw [if_neg c2] at hr
    by_cases c3 : strStarts "manual_files[" (pyStrip raw) = true
    · rw [if_pos c3] at hr
      exact manual_line_records_validated exists_fn config rest true r hr hsrc
    rw [if_neg c3] at hr
    by_cases c4 : (strStarts "folders[" (pyStrip raw) || strStarts "files[" (pyStrip raw)) = true
    · rw [if_pos c4] at hr
      exact manual_line_records_validated exists_fn config rest false r hr hsrc
    rw [if_neg c4] at hr
    by_cases c5 : (!b || strStarts "-" (pyStrip raw) || (pyStrip raw).data.contains ':') = true
    · rw [if_pos c5] at hr
      exact manual_line_records_validated exists_fn config rest b r hr hsrc
    rw [if_neg c5] at hr
    cases hsp : split_once ',' (pyStrip raw).data with
    | none =>
      rw [hsp] at hr
      exact manual_line_records_validated exists_fn config rest b r hr hsrc
    | some ab =>
      obtain ⟨a, b2⟩ := ab
      simp only [hsp] at hr
      by_cases he : exists_fn (pyStrip (String.mk a)) = true
      · by_cases hv : (validate_summary (pyStrip (String.mk b2)) config).isEmpty = true
        · simp only [he, Bool.not_true, Bool.false_eq_true, if_false, hv, if_true, if_pos,
            List.mem_cons] at hr
          rcases hr with hr | hr
          · subst hr
            simpa [List.isEmpty_iff] using hv
          · exact manual_line_records_validated exists_fn config rest b r hr hsrc
        · simp only [he, Bool.not_true, Bool.false_eq_true, if_false, hv, List.mem_cons] at hr
          rcases hr with hr | hr
          · subst hr; simp at hsrc
          · exact manual_line_records_validated exists_fn config rest b r hr hsrc
      · have he' : exists_fn (pyStrip (String.mk a)) = false := by simpa using he
        simp only [he', Bool.not_false, if_true, if_pos, List.mem_cons] at hr
        rcases hr with hr | hr
        · subst hr; simp at hsrc
        · exact manual_line_records_validated exists_fn config rest b r hr hsrc

theorem bfo_go_records (st : RepoState) (config : AtlasConfig) : ∀ (folders : List (List String))
    (recs : List Record) (miss : List String) (inv : List (String × List String)),
    (build_folder_records_go st config folders recs miss inv).1 =
      recs ++ folders.map (folder_record_of st config)
  | [], recs, miss, inv => by simp [build_folder_records_go]
  | folder :: rest, recs, miss, inv => by
    rcases hx : read_folder_purpose st folder config with ⟨osum, issues⟩
    simp only [build_folder_records_go, List.map_cons, folder_record_of, hx]
    by_cases h1 : issues.isEmpty = true
    · simp [h1, bfo_go_records st config rest]
    by_cases h2 : "missing .purpose file" ∈ issues
    · simp [h1, h2, bfo_go_records st config rest]
    · simp [h1, h2, bfo_go_records st config rest]

theorem build_folder_records_records (st : RepoState) (config : AtlasConfig)
    (folders : List (List String)) :
    (build_folder_records st folders config).1 = folders.map (folder_record_of st config) := by
  simpa [build_folder_records] using bfo_go_records st config folders [] [] []

theorem read_folder_purpose_empty_issues (st : RepoState) (folder : List String)
    (config : AtlasConfig) (osum : Option String)
    (h : read_folder_purpose st folder config = (osum, [])) :
    validate_summary (osum.getD "") config = [] := by
  unfold read_folder_purpose at h
  cases hc : state_file_content st (folder ++ [config.purpose_filename]) with
  | none => rw [hc] at h; simp at h
  | some lines =>
    simp only [hc] at h
    by_cases hs : folder_summary_scan lines = ""
    · rw [if_pos hs] at h; simp at h
    · rw [if_neg hs] at h
      by_cases hv : (validate_summary (folder_summary_scan lines) config).isEmpty = true
      · rw [if_pos hv] at h
        simp only [Prod.mk.injEq] at h
        rw [← h.1]
        simpa [List.isEmpty_iff] using hv
      · rw [if_neg hv] at h
        simp only [Prod.mk.injEq] at h
        exact absurd (by rw [h.2]; rfl : (validate_summary (folder_summary_scan lines)
          config).isEmpty = true) hv

/-- C7 counterexample: a Python file whose docstring reads Purpose: MISSING
passes validation and produces a record with source kind header whose
summary is the reserved sentinel literal, so a real extracted summary does
collide with the sentinels. -/
theorem C7_counterexample_header_with_sentinel :
    build_file_records [(["a.py"], ["\"\"\"Purpose: MISSING\"\"\""])] cfg0 =
      ([⟨"a.py", "MISSING", "header"⟩], [], []) := by
  decide

/-- C7 as amended: every record with source kind header, manual or purpose
carries a summary the validator accepted (in particular nonempty), but
nothing prevents that summary from equalling a sentinel literal. -/
theorem C7_validated_summaries (config : AtlasConfig)
    (files : List (List String × List String)) (st : RepoState)
    (folders : List (List String)) (r : Record) :
    (r ∈ (build_file_records files config).1 → r.source = "header" →
      validate_summary r.summary config = []) ∧
    (r ∈ (read_manual_file_entries st config).1 → r.source = "manual" →
      validate_summary r.summary config = []) ∧
    (r ∈ (build_folder_records st folders config).1 → r.source = "purpose" →
      validate_summary r.summary config = []) := by
  refine ⟨?_, ?_, ?_⟩
  · intro hr hsrc
    rw [build_file_records_records] at hr
    obtain ⟨f, hf, hfr⟩ := List.mem_map.mp hr
    rcases hx : extract_purpose_header f.1 f.2 config with ⟨osum, iss⟩
    rw [← hfr] at hsrc ⊢
    simp only [file_record_of, hx] at hsrc ⊢
    cases osum with
    | none => simp at hsrc
    | some s =>
      by_cases hs : s = ""
      · simp [hs] at hsrc
      · by_cases hv : (validate_summary s config).isEmpty = true
        · simp only [hs, decide_eq_false, Bool.false_eq_true, if_false, Option.getD_some,
            hv, if_pos, if_true]
          simpa [List.isEmpty_iff] using hv
        · simp [hs, hv] at hsrc
  · intro hr hsrc
    unfold read_manual_file_entries at hr
    cases hmp : config.manual_files_path with
    | none => rw [hmp] at hr; simp at hr
    | some mp =>
      simp only [hmp] at hr
      cases hc : state_file_content st mp with
      | none => simp only [hc] at hr; simp at hr
      | some lines =>
        simp only [hc] at hr
        rcases hgo : read_manual_go (path_exists st) config false lines [] [] [] with ⟨e, m, i⟩
        simp only [hgo] at hr
        have hent := read_manual_go_entries (path_exists st) config lines false [] [] []
        rw [hgo] at hent
        simp only [List.nil_append] at hent
        rw [hent] at hr
        exact manual_line_records_validated (path_exists st) config lines false r hr hsrc
  · intro hr hsrc
    rw [build_folder_records_records] at hr
    obtain ⟨folder, hf, hfr⟩ := List.mem_map.mp hr
    rcases hx : read_folder_purpose st folder config with ⟨osum, issues⟩
    rw [← hfr] at hsrc ⊢
    simp only [folder_record_of, hx] at hsrc ⊢
    by_cases h1 : issues.isEmpty = true
    · simp only [h1, if_pos, if_true]
      have hiss : issues = [] := by simpa [List.isEmpty_iff] using h1
      exact read_folder_purpose_empty_issues st folder config osum (hiss ▸ hx)
    · by_cases h2 : "missing .purpose file" ∈ issues
      · simp [h1, h2] at hsrc
      · simp [h1, h2] at hsrc

theorem C7_witness :
    ((⟨"a.py", "MISSING", "header"⟩ : Record) ∈
        (build_file_records [(["a.py"], ["\"\"\"Purpose: MISSING\"\"\""])] cfg0).1 →
      (⟨"a.py", "MISSING", "header"⟩ : Record).source = "header" →
      validate_summary (⟨"a.py", "MISSING", "header"⟩ : Record).summary cfg0 = []) ∧
    validate_summary "MISSING" cfg0 = [] :=
  ⟨(C7_validated_summaries cfg0 [(["a.py"], ["\"\"\"Purpose: MISSING\"\"\""])]
      ⟨[], []⟩ [] ⟨"a.py", "MISSING", "header"⟩).1,
   (C7_validated_summaries cfg0 [(["a.py"], ["\"\"\"Purpose: MISSING\"\"\""])]
      ⟨[], []⟩ [] ⟨"a.py", "MISSING", "header"⟩).1 (by decide) (by decide)⟩

/-! Dictionary facts backing the merge of manual records. -/

theorem dict_set_absent {α : Type} (d : List (String × α)) (k : String) (v : α)
    (h : ∀ kv ∈ d, kv.1 ≠ k) : dict_set d k v = d ++ [(k, v)] := by
  have hany : d.any (fun kv => kv.1 = k) = false := by
    rw [List.any_eq_false]
    intro kv hkv
    simpa using h kv hkv
  simp [dict_set, hany]

theorem auto_fold_eq (records : List Record) : ∀ (d : List (String × Record)),
    (∀ r ∈ records, ∀ kv ∈ d, kv.1 ≠ r.path) → (records.map Record.path).Nodup →
    records.foldl (fun d r => dict_set d r.path r) d =
      d ++ records.map (fun r => (r.path, r)) := by
  induction records with
  | nil => intro d _ _; simp
  | cons r rest ih =>
    intro d hdisj hnd
    simp only [List.foldl_cons, List.map_cons]
    rw [dict_set_absent d r.path r (fun kv hkv => hdisj r (by simp) kv hkv)]
    rw [List.map_cons, List.nodup_cons] at hnd
    rw [ih (d ++ [(r.path, r)]) ?_ hnd.2]
    · simp
    · intro r' hr' kv hkv
      rcases List.mem_append.mp hkv with hkv | hkv
      · exact hdisj r' (by simp [hr']) kv hkv
      · simp only [List.mem_singleton] at hkv
        subst hkv
        intro hEq
        apply hnd.1
        rw [show r.path = r'.path from hEq]
        exact List.mem_map.mpr ⟨r', hr', rfl⟩

theorem manual_fold_mem (manual : List Record) : ∀ (d : List (String × Record))
    (kv : String × Record), kv ∈ d →
    kv ∈ manual.foldl
      (fun d r => if d.any (fun kv => kv.1 = r.path) then d else d ++ [(r.path, r)]) d := by
  induction manual with
  | nil => intro d kv h; simpa using h
  | cons m rest ih =>
    intro d kv h
    simp only [List.foldl_cons]
    by_cases hany : d.any (fun kv => kv.1 = m.path) = true
    · rw [if_pos hany]
      exact ih d kv h
    · rw [if_neg hany]
      exact ih (d ++ [(m.path, m)]) kv (List.mem_append.mpr (Or.inl h))

theorem manual_fold_keyed (manual : List Record) : ∀ (d : List (String × Record)),
    (∀ kv ∈ d, kv.2.path = kv.1) →
    ∀ kv ∈ manual.foldl
      (fun d r => if d.any (fun kv => kv.1 = r.path) then d else d ++ [(r.path, r)]) d,
      kv.2.path = kv.1 := by
  induction manual with
  | nil => intro d h kv hkv; exact h kv (by simpa using hkv)
  | cons m rest ih =>
    intro d h kv hkv
    simp only [List.foldl_cons] at hkv
    by_cases hany : d.any (fun kv => kv.1 = m.path) = true
    · rw [if_pos hany] at hkv
      exact ih d h kv hkv
    · rw [if_neg hany] at hkv
      refine ih (d ++ [(m.path, m)]) ?_ kv hkv
      intro kv' hkv'
      rcases List.mem_append.mp hkv' with h' | h'
      · exact h kv' h'
      · simp only [List.mem_singleton] at h'
        subst h'; rfl

theorem manual_fold_keys_nodup (manual : List Record) : ∀ (d : List (String × Record)),
    (d.map Prod.fst).Nodup →
    ((manual.foldl
      (fun d r => if d.any (fun kv => kv.1 = r.path) then d else d ++ [(r.path, r)]) d).map
        Prod.fst).Nodup := by
  induction manual with
  | nil => intro d h; simpa using h
  | cons m rest ih =>
    intro d h
    simp only [List.foldl_cons]
    by_cases hany : d.any (fun kv => kv.1 = m.path) = true
    · rw [if_pos hany]
      exact ih d h
    · rw [if_neg hany]
      refine ih (d ++ [(m.path, m)]) ?_
      rw [List.map_append]
      simp only [List.map_cons, List.map_nil]
      rw [List.nodup_append]
      refine ⟨h, List.nodup_singleton _, ?_⟩
      intro k hk
      simp only [List.mem_singleton]
      intro hkm
      subst hkm
      obtain ⟨kv, hkv, hkveq⟩ := List.mem_map.mp hk
      have hany2 : (d.any fun kv => decide (kv.1 = m.path)) = false := by
        rwa [Bool.not_eq_true] at hany
      rw [List.any_eq_false] at hany2
      exact hany2 kv hkv (decide_eq_true hkveq)

theorem keyed_unique (d : List (String × Record)) (hnd : (d.map Prod.fst).Nodup)
    (k : String) (v : Record) (hin : (k, v) ∈ d) :
    ∀ kv ∈ d, kv.1 = k → kv = (k, v) := by
  induction d with
  | nil => simp at hin
  | cons x xs ih =>
    simp only [List.map_cons, List.nodup_cons] at hnd
    intro kv hkv hk
    rcases List.mem_cons.mp hin with h1 | h1 <;> rcases List.mem_cons.mp hkv with h2 | h2
    · subst h1; subst h2; rfl
    · subst h1
      exact absurd (List.mem_map.mpr ⟨kv, h2, hk⟩) hnd.1
    · subst h2
      exact absurd (List.mem_map.mpr ⟨(k, v), h1, rfl⟩) (hk ▸ hnd.1)
    · exact ih hnd.2 h1 kv h2 hk

theorem sort_records_sorted (l : List Record) :
    List.Sorted (fun a b : Record => strLe a.path b.path = true) (sort_records l) := by
  unfold sort_records
  refine @List.sorted_insertionSort Record (fun a b => strLe a.path b.path = true)
    (fun _ _ => inferInstance) ⟨fun a b => ?_⟩
    ⟨fun _ _ _ h1 h2 => strLe_trans _ _ _ h1 h2⟩ l
  by_cases hab : strLe a.path b.path = true
  · exact Or.inl hab
  · right
    have h := strLe_total a.path b.path
    rw [Bool.not_eq_true] at hab
    rw [hab] at h
    simpa using h

theorem sort_records_perm (l : List Record) : List.Perm (sort_records l) l := by
  unfold sort_records
  exact List.perm_insertionSort _ l

/-- C4: when a path has both an auto-discovered record and a manual entry,
the merged output record for that path is the auto-discovered one; the
merged output is sorted ascending by path, with at most one record per
path. -/
theorem C4_auto_records_win (records manual : List Record) (r m : Record)
    (hnd : (records.map Record.path).Nodup)
    (hr : r ∈ records) (_hm : m ∈ manual) (_hmp : m.path = r.path) :
    (r ∈ merge_manual_file_records records manual ∧
      ∀ r' ∈ merge_manual_file_records records manual, r'.path = r.path → r' = r) ∧
    List.Sorted (fun a b : Record => strLe a.path b.path = true)
      (merge_manual_file_records records manual) ∧
    ((merge_manual_file_records records manual).map Record.path).Nodup := by
  have hauto : records.foldl (fun d r => dict_set d r.path r) [] =
      records.map (fun r => (r.path, r)) := by
    simpa using auto_fold_eq records [] (by simp) hnd
  set d1 := records.map (fun r => (r.path, r)) with hd1
  set d2 := manual.foldl
    (fun d r => if d.any (fun kv => kv.1 = r.path) then d else d ++ [(r.path, r)]) d1 with hd2
  have hmerge : merge_manual_file_records records manual =
      sort_records (d2.map (fun kv => kv.2)) := by
    simp only [merge_manual_file_records, hauto]
  have hkeys1 : (d1.map Prod.fst).Nodup := by
    rw [hd1, List.map_map]
    simpa [Function.comp] using hnd
  have hkeyed1 : ∀ kv ∈ d1, kv.2.path = kv.1 := by
    intro kv hkv
    obtain ⟨x, _, hx⟩ := List.mem_map.mp hkv
    subst hx; rfl
  have hkeys2 : (d2.map Prod.fst).Nodup := manual_fold_keys_nodup manual d1 hkeys1
  have hkeyed2 : ∀ kv ∈ d2, kv.2.path = kv.1 := manual_fold_keyed manual d1 hkeyed1
  have hrin : (r.path, r) ∈ d2 :=
    manual_fold_mem manual d1 (r.path, r) (List.mem_map.mpr ⟨r, hr, rfl⟩)
  refine ⟨⟨?_, ?_⟩, ?_, ?_⟩
  · rw [hmerge, (sort_records_perm _).mem_iff]
    exact List.mem_map.mpr ⟨(r.path, r), hrin, rfl⟩
  · intro r' hr' hp
    rw [hmerge, (sort_records_perm _).mem_iff] at hr'
    obtain ⟨kv', hkv', hkveq⟩ := List.mem_map.mp hr'
    have hk' : kv'.1 = r.path := by rw [← hkeyed2 kv' hkv', hkveq, hp]
    have := keyed_unique d2 hkeys2 r.path r hrin kv' hkv' hk'
    rw [← hkveq, this]
  · rw [hmerge]
    exact sort_records_sorted _
  · rw [hmerge]
    have hperm : List.Perm ((sort_records (d2.map (fun kv => kv.2))).map Record.path)
        ((d2.map (fun kv => kv.2)).map Record.path) :=
      (sort_records_perm _).map Record.path
    rw [hperm.nodup_iff, List.map_map]
    have heq : d2.map (Record.path ∘ fun kv => kv.2) = d2.map Prod.fst :=
      List.map_congr_left (fun kv hkv => hkeyed2 kv hkv)
    rw [heq]
    exact hkeys2

theorem C4_witness :
    ((⟨"a", "A", "header"⟩ : Record) ∈
        merge_manual_file_records [⟨"b", "B", "header"⟩, ⟨"a", "A", "header"⟩]
          [⟨"a", "M", "manual"⟩, ⟨"c", "C", "manual"⟩] ∧
      ∀ r' ∈ merge_manual_file_records [⟨"b", "B", "header"⟩, ⟨"a", "A", "header"⟩]
          [⟨"a", "M", "manual"⟩, ⟨"c", "C", "manual"⟩],
        r'.path = (⟨"a", "A", "header"⟩ : Record).path → r' = ⟨"a", "A", "header"⟩) ∧
    List.Sorted (fun a b : Record => strLe a.path b.path = true)
      (merge_manual_file_records [⟨"b", "B", "header"⟩, ⟨"a", "A", "header"⟩]
        [⟨"a", "M", "manual"⟩, ⟨"c", "C", "manual"⟩]) ∧
    ((merge_manual_file_records [⟨"b", "B", "header"⟩, ⟨"a", "A", "header"⟩]
        [⟨"a", "M", "manual"⟩, ⟨"c", "C", "manual"⟩]).map Record.path).Nodup :=
  C4_auto_records_win [⟨"b", "B", "header"⟩, ⟨"a", "A", "header"⟩]
    [⟨"a", "M", "manual"⟩, ⟨"c", "C", "manual"⟩] ⟨"a", "A", "header"⟩ ⟨"a", "M", "manual"⟩
    (by decide) (by decide) (by decide) (by decide)

/-! Facts about the duplicate-summary grouping. -/

theorem sortStrings_sorted (l : List String) :
    List.Sorted (fun a b => strLe a b = true) (sortStrings l) := by
  unfold sortStrings
  refine @List.sorted_insertionSort String (fun a b => strLe a b = true)
    (fun _ _ => inferInstance) ⟨fun a b => ?_⟩
    ⟨fun _ _ _ h1 h2 => strLe_trans _ _ _ h1 h2⟩ l
  by_cases hab : strLe a b = true
  · exact Or.inl hab
  · right
    have h := strLe_total a b
    rw [Bool.not_eq_true] at hab
    rw [hab] at h
    simpa using h

theorem sortStrings_perm (l : List String) : List.Perm (sortStrings l) l := by
  unfold sortStrings
  exact List.perm_insertionSort _ l

theorem sortPairs_sorted (l : List (String × List String)) :
    List.Sorted (fun a b : String × List String => strLe a.1 b.1 = true)
      (List.insertionSort (fun a b : String × List String => strLe a.1 b.1 = true) l) := by
  refine @List.sorted_insertionSort (String × List String)
    (fun a b => strLe a.1 b.1 = true)
    (fun _ _ => inferInstance) ⟨fun a b => ?_⟩
    ⟨fun _ _ _ h1 h2 => strLe_trans _ _ _ h1 h2⟩ l
  by_cases hab : strLe a.1 b.1 = true
  · exact Or.inl hab
  · right
    have h := strLe_total a.1 b.1
    rw [Bool.not_eq_true] at hab
    rw [hab] at h
    simpa using h

theorem filter_eq_nil_of_any_false {d : List (String × List String)} {k : String}
    (h : (d.any fun kv => decide (kv.1 = k)) = false) :
    d.filter (fun kv => decide (kv.1 = k)) = [] := by
  rw [List.filter_eq_nil_iff]
  rw [List.any_eq_false] at h
  intro kv hkv
  exact h kv hkv

theorem any_true_of_filter_singleton {d : List (String × List String)} {k : String}
    {ps : List String} (h : d.filter (fun kv => decide (kv.1 = k)) = [(k, ps)]) :
    (d.any fun kv => decide (kv.1 = k)) = true := by
  rw [List.any_eq_true]
  have : (k, ps) ∈ d.filter (fun kv => decide (kv.1 = k)) := by rw [h]; simp
  exact ⟨(k, ps), (List.mem_filter.mp this).1, by simp⟩

theorem group_append_keys (d : List (String × List String)) (k v : String) :
    (group_append d k v).map Prod.fst =
      if (d.any fun kv => decide (kv.1 = k)) = true then d.map Prod.fst
      else d.map Prod.fst ++ [k] := by
  by_cases hany : (d.any fun kv => decide (kv.1 = k)) = true
  · rw [if_pos hany]
    simp only [group_append, hany, if_pos, if_true, List.map_map]
    refine List.map_congr_left ?_
    intro kv _
    by_cases hk : kv.1 = k
    · simp [Function.comp, hk]
    · simp [Function.comp, hk]
  · rw [if_neg hany]
    simp only [group_append]
    rw [if_neg hany]
    simp

theorem group_append_keys_nodup (d : List (String × List String)) (k v : String)
    (hnd : (d.map Prod.fst).Nodup) : ((group_append d k v).map Prod.fst).Nodup := by
  rw [group_append_keys]
  by_cases hany : (d.any fun kv => decide (kv.1 = k)) = true
  · rw [if_pos hany]
    exact hnd
  · rw [if_neg hany]
    have hany2 : (d.any fun kv => decide (kv.1 = k)) = false := by
      rwa [Bool.not_eq_true] at hany
    rw [List.any_eq_false] at hany2
    rw [List.nodup_append]
    refine ⟨hnd, List.nodup_singleton _, ?_⟩
    intro x hx
    simp only [List.mem_singleton]
    intro hxk
    subst hxk
    obtain ⟨kv, hkv, hkveq⟩ := List.mem_map.mp hx
    exact hany2 kv hkv (decide_eq_true hkveq)

theorem group_append_filter_absent (d : List (String × List String)) (k v : String)
    (h : d.filter (fun kv => decide (kv.1 = k)) = []) :
    (group_append d k v).filter (fun kv => decide (kv.1 = k)) = [(k, [v])] := by
  have hany : (d.any fun kv => decide (kv.1 = k)) = false := by
    rw [List.any_eq_false]
    rw [List.filter_eq_nil_iff] at h
    exact h
  simp only [group_append, hany, Bool.false_eq_true, if_neg, if_false]
  rw [List.filter_append, h]
  simp

theorem group_append_filter_present (d : List (String × List String)) (k v : String)
    (ps : List String) (h : d.filter (fun kv => decide (kv.1 = k)) = [(k, ps)]) :
    (group_append d k v).filter (fun kv => decide (kv.1 = k)) = [(k, ps ++ [v])] := by
  have hany : (d.any fun kv => decide (kv.1 = k)) = true := any_true_of_filter_singleton h
  simp only [group_append, hany, if_pos, if_true]
  rw [List.filter_map]
  have hcomp : ((fun kv : String × List String => decide (kv.1 = k)) ∘
      fun kv => if kv.1 = k then (k, kv.2 ++ [v]) else kv) =
      fun kv : String × List String => decide (kv.1 = k) := by
    funext kv
    by_cases hk : kv.1 = k
    · simp [Function.comp, hk]
    · simp [Function.comp, hk]
  rw [hcomp, h]
  simp

theorem group_append_filter_other (d : List (String × List String)) (k v s : String)
    (hks : k ≠ s) :
    (group_append d k v).filter (fun kv => decide (kv.1 = s)) =
      d.filter (fun kv => decide (kv.1 = s)) := by
  by_cases hany : (d.any fun kv => decide (kv.1 = k)) = true
  · simp only [group_append, hany, if_pos, if_true]
    rw [List.filter_map]
    have hcomp : ((fun kv : String × List String => decide (kv.1 = s)) ∘
        fun kv => if kv.1 = k then (k, kv.2 ++ [v]) else kv) =
        fun kv : String × List String => decide (kv.1 = s) := by
      funext kv
      by_cases hk : kv.1 = k
      · simp [Function.comp, hk, (hk ▸ hks : kv.1 ≠ s)]
      · simp [Function.comp, hk]
    rw [hcomp]
    have hid : List.map (fun kv => if kv.1 = k then (k, kv.2 ++ [v]) else kv)
        (d.filter (fun kv => decide (kv.1 = s))) =
        List.map id (d.filter (fun kv => decide (kv.1 = s))) := by
      refine List.map_congr_left ?_
      intro kv hkv
      have hkvs : kv.1 = s := by simpa using (List.mem_filter.mp hkv).2
      have hne : kv.1 ≠ k := by rw [hkvs]; exact fun h => hks h.symm
      simp [hne]
    rw [hid, List.map_id]
  · have hany2 : (d.any fun kv => decide (kv.1 = k)) = false := by
      rwa [Bool.not_eq_true] at hany
    simp only [group_append, hany2, Bool.false_eq_true, if_neg, if_false]
    rw [List.filter_append]
    have : ([(k, [v])].filter (fun kv => decide (kv.1 = s))) = [] := by
      simp [hks]
    rw [this, List.append_nil]

theorem grouped_fold_spec (records : List Record) : ∀ (d : List (String × List String))
    (s : String), s ≠ "MISSING" → s ≠ "INVALID" → (d.map Prod.fst).Nodup →
    (((records.foldl (fun d r =>
        if r.summary = "MISSING" || r.summary = "INVALID" then d
        else group_append d r.summary r.path) d).map Prod.fst).Nodup ∧
     (d.filter (fun kv => decide (kv.1 = s)) = [] →
       (records.foldl (fun d r =>
          if r.summary = "MISSING" || r.summary = "INVALID" then d
          else group_append d r.summary r.path) d).filter (fun kv => decide (kv.1 = s)) =
         (if (records.filter (fun r => r.summary = s)).map Record.path = [] then []
          else [(s, (records.filter (fun r => r.summary = s)).map Record.path)])) ∧
     (∀ ps, d.filter (fun kv => decide (kv.1 = s)) = [(s, ps)] →
       (records.foldl (fun d r =>
          if r.summary = "MISSING" || r.summary = "INVALID" then d
          else group_append d r.summary r.path) d).filter (fun kv => decide (kv.1 = s)) =
         [(s, ps ++ (records.filter (fun r => r.summary = s)).map Record.path)])) := by
  induction records with
  | nil =>
    intro d s _ _ hnd
    refine ⟨hnd, ?_, ?_⟩
    · intro h
      simp [h]
    · intro ps h
      simp [h]
  | cons r rest ih =>
    intro d s hs1 hs2 hnd
    simp only [List.foldl_cons, List.filter_cons]
    by_cases hsent : (r.summary = "MISSING" || r.summary = "INVALID") = true
    · have hrs : r.summary ≠ s := by
        have hsent2 := hsent
        rw [Bool.or_eq_true] at hsent2
        rcases hsent2 with h | h
        · rw [of_decide_eq_true h]
          exact fun hc => hs1 hc.symm
        · rw [of_decide_eq_true h]
          exact fun hc => hs2 hc.symm
      rw [if_pos hsent]
      have := ih d s hs1 hs2 hnd
      simpa [hrs] using this
    · rw [if_neg hsent]
      by_cases hrs : r.summary = s
      · subst hrs
        have hnd2 : ((group_append d r.summary r.path).map Prod.fst).Nodup :=
          group_append_keys_nodup d r.summary r.path hnd
        obtain ⟨ihn, ihL1, ihL2⟩ := ih (group_append d r.summary r.path) r.summary hs1 hs2 hnd2
        refine ⟨ihn, ?_, ?_⟩
        · intro hfe
          have hga := group_append_filter_absent d r.summary r.path hfe
          have hres := ihL2 [r.path] hga
          rw [hres]
          simp
        · intro ps hfs
          have hga := group_append_filter_present d r.summary r.path ps hfs
          have hres := ihL2 (ps ++ [r.path]) hga
          rw [hres]
          simp
      · have hnd2 : ((group_append d r.summary r.path).map Prod.fst).Nodup :=
          group_append_keys_nodup d r.summary r.path hnd
        obtain ⟨ihn, ihL1, ihL2⟩ := ih (group_append d r.summary r.path) s hs1 hs2 hnd2
        have hother := group_append_filter_other d r.summary r.path s hrs
        refine ⟨ihn, ?_, ?_⟩
        · intro hfe
          have := ihL1 (by rw [hother]; exact hfe)
          simpa [hrs] using this
        · intro ps hfs
          have := ihL2 ps (by rw [hother]; exact hfs)
          simpa [hrs] using this

theorem grouped_summaries_filter (records : List Record) (s : String)
    (hs1 : s ≠ "MISSING") (hs2 : s ≠ "INVALID") :
    (grouped_summaries records).filter (fun kv => decide (kv.1 = s)) =
      (if (records.filter (fun r => r.summary = s)).map Record.path = [] then []
       else [(s, (records.filter (fun r => r.summary = s)).map Record.path)]) := by
  have h := (grouped_fold_spec records [] s hs1 hs2 (by simp)).2.1 (by simp)
  simpa [grouped_summaries] using h

theorem grouped_fold_sentinel_filter (records : List Record) : ∀ (d : List (String × List String)),
    records.foldl (fun d r =>
      if r.summary = "MISSING" || r.summary = "INVALID" then d
      else group_append d r.summary r.path) d =
    (records.filter (fun r => !(r.summary = "MISSING" || r.summary = "INVALID"))).foldl
      (fun d r =>
        if r.summary = "MISSING" || r.summary = "INVALID" then d
        else group_append d r.summary r.path) d := by
  induction records with
  | nil => intro d; rfl
  | cons r rest ih =>
    intro d
    simp only [List.foldl_cons, List.filter_cons]
    by_cases hsent : (r.summary = "MISSING" || r.summary = "INVALID") = true
    · rw [if_pos hsent]
      simp only [hsent, Bool.not_true, Bool.false_eq_true, if_false]
      exact ih d
    · have hsent2 : (r.summary = "MISSING" || r.summary = "INVALID") = false := by
        rwa [Bool.not_eq_true] at hsent
      rw [if_neg hsent]
      simp only [hsent2, Bool.not_false, if_pos, if_true, List.foldl_cons,
        Bool.false_eq_true, if_false]
      exact ih (group_append d r.summary r.path)

/-- C5: sentinel-valued records never contribute to duplicate groups; for
every non-sentinel summary shared by two or more records there is exactly
one emitted group, rendered as the summary, the separator, and the
pipe-joined paths sorted ascending; and the emitted groups are ordered by
summary text. -/
theorem C5_duplicate_groups (records : List Record) (s : String)
    (_hnd : (records.map Record.path).Nodup)
    (hs1 : s ≠ "MISSING") (hs2 : s ≠ "INVALID")
    (hlen : 2 ≤ ((records.filter (fun r => r.summary = s)).map Record.path).length) :
    build_summary_duplicates records =
      build_summary_duplicates (records.filter
        (fun r => !(r.summary = "MISSING" || r.summary = "INVALID"))) ∧
    (dup_groups records).filter (fun kv => decide (kv.1 = s)) =
      [(s, (records.filter (fun r => r.summary = s)).map Record.path)] ∧
    (s ++ " :: " ++ strJoin " | "
        (sortStrings ((records.filter (fun r => r.summary = s)).map Record.path))) ∈
      build_summary_duplicates records ∧
    List.Sorted (fun a b => strLe a b = true)
      (sortStrings ((records.filter (fun r => r.summary = s)).map Record.path)) ∧
    List.Perm (sortStrings ((records.filter (fun r => r.summary = s)).map Record.path))
      ((records.filter (fun r => r.summary = s)).map Record.path) ∧
    List.Pairwise (fun a b : String × List String => strLe a.1 b.1 = true)
      (dup_groups records) := by
  have hps : (records.filter (fun r => r.summary = s)).map Record.path ≠ [] := by
    intro h
    rw [h] at hlen
    simp at hlen
  have hgf : (grouped_summaries records).filter (fun kv => decide (kv.1 = s)) =
      [(s, (records.filter (fun r => r.summary = s)).map Record.path)] := by
    rw [grouped_summaries_filter records s hs1 hs2, if_neg hps]
  have hdupf : (dup_groups records).filter (fun kv => decide (kv.1 = s)) =
      [(s, (records.filter (fun r => r.summary = s)).map Record.path)] := by
    rw [dup_groups, List.filter_filter]
    have hperm : List.Perm
        ((List.insertionSort (fun a b : String × List String => strLe a.1 b.1 = true)
          (grouped_summaries records)).filter
            (fun a => decide (a.1 = s) && decide (1 < a.2.length)))
        ((grouped_summaries records).filter
            (fun a => decide (a.1 = s) && decide (1 < a.2.length))) :=
      (List.perm_insertionSort _ _).filter _
    have heq : (grouped_summaries records).filter
        (fun a => decide (a.1 = s) && decide (1 < a.2.length)) =
        [(s, (records.filter (fun r => r.summary = s)).map Record.path)] := by
      have hcomm : (grouped_summaries records).filter
          (fun a => decide (a.1 = s) && decide (1 < a.2.length)) =
          (grouped_summaries records).filter
          (fun a => decide (1 < a.2.length) && decide (a.1 = s)) :=
        List.filter_congr (fun kv _ => by rw [Bool.and_comm])
      rw [hcomm, ← List.filter_filter, hgf]
      have hlen2 : 1 < ((records.filter (fun r => r.summary = s)).map Record.path).length := by
        omega
      have hlen3 : 1 < (records.filter (fun r => r.summary = s)).length := by
        simpa using hlen2
      simp [hlen2, hlen3]
    rw [heq] at hperm
    rwa [List.perm_singleton] at hperm
  refine ⟨?_, hdupf, ?_, sortStrings_sorted _, sortStrings_perm _, ?_⟩
  · simp only [build_summary_duplicates, dup_groups, grouped_summaries]
    rw [grouped_fold_sentinel_filter records]
  · have hmem : (s, (records.filter (fun r => r.summary = s)).map Record.path) ∈
        dup_groups records := by
      have : (s, (records.filter (fun r => r.summary = s)).map Record.path) ∈
          (dup_groups records).filter (fun kv => decide (kv.1 = s)) := by
        rw [hdupf]; simp
      exact List.mem_of_mem_filter this
    rw [build_summary_duplicates]
    exact List.mem_map.mpr ⟨_, hmem, rfl⟩
  · exact (sortPairs_sorted (grouped_summaries records)).filter _

theorem C5_witness :
    (build_summary_duplicates
        [⟨"b", "S", "header"⟩, ⟨"a", "S", "header"⟩, ⟨"c", "MISSING", "missing"⟩] =
      build_summary_duplicates
        (List.filter (fun r => !(r.summary = "MISSING" || r.summary = "INVALID"))
          [⟨"b", "S", "header"⟩, ⟨"a", "S", "header"⟩, ⟨"c", "MISSING", "missing"⟩])) ∧
    ("S :: a | b") ∈ build_summary_duplicates
        [⟨"b", "S", "header"⟩, ⟨"a", "S", "header"⟩, ⟨"c", "MISSING", "missing"⟩] := by
  have h := C5_duplicate_groups
    [⟨"b", "S", "header"⟩, ⟨"a", "S", "header"⟩, ⟨"c", "MISSING", "missing"⟩] "S"
    (by decide) (by decide) (by decide) (by decide)
  refine ⟨h.1, ?_⟩
  have h3 := h.2.2.1
  simpa using h3

/-- C8 counterexample: a sidecar line inside the manual section that is
non-blank, not comment-prefixed and splits into two comma-separated fields
is nevertheless ignored when it contains a colon, so the claimed conditions
do not suffice for an entry to be produced. -/
theorem C8_counterexample_colon_line_ignored :
    (pyStrip "x.txt, has: colon").data.isEmpty = false ∧
    strStarts "#" (pyStrip "x.txt, has: colon") = false ∧
    strStarts "//" (pyStrip "x.txt, has: colon") = false ∧
    split_once ',' (pyStrip "x.txt, has: colon").data =
      some ("x.txt".data, " has: colon".data) ∧
    path_exists stM "x.txt" = true ∧
    validate_summary "has: colon" cfgM = [] ∧
    read_manual_go (path_exists stM) cfgM true ["x.txt, has: colon"] [] [] [] =
      ([], [], []) ∧
    read_manual_file_entries stM cfgM = ([], [], [], []) := by
  decide

/-- C8 as amended: inside the manual section, a line that is non-blank, not
comment-prefixed, not a section marker, does not start with a dash, contains
no colon, and splits at a comma into a path and a summary produces exactly
one entry for that path — missing when the resolved target does not exist,
invalid when the summary fails validation, manual otherwise; and a line that
is blank, comment-prefixed, dash-prefixed, colon-containing or without a
comma, and is not a section marker, is ignored with the section state and
every accumulator unchanged. -/
theorem C8_manual_line_step (exists_fn : String → Bool) (config : AtlasConfig)
    (raw : String) (rest : List String) (es : List Record) (ms : List String)
    (iv : List (String × List String)) :
    (∀ a b, (pyStrip raw).data.isEmpty = false →
      strStarts "#" (pyStrip raw) = false → strStarts "//" (pyStrip raw) = false →
      strStarts "manual_files[" (pyStrip raw) = false →
      strStarts "folders[" (pyStrip raw) = false → strStarts "files[" (pyStrip raw) = false →
      strStarts "-" (pyStrip raw) = false → (pyStrip raw).data.contains ':' = false →
      split_once ',' (pyStrip raw).data = some (a, b) →
      read_manual_go exists_fn config true (raw :: rest) es ms iv =
        (if exists_fn (pyStrip (String.mk a)) = false then
          read_manual_go exists_fn config true rest
            (es ++ [⟨pyStrip (String.mk a), "MISSING", "missing"⟩])
            (ms ++ [pyStrip (String.mk a)]) iv
        else if (validate_summary (pyStrip (String.mk b)) config).isEmpty then
          read_manual_go exists_fn config true rest
            (es ++ [⟨pyStrip (String.mk a), pyStrip (String.mk b), "manual"⟩]) ms iv
        else
          read_manual_go exists_fn config true rest
            (es ++ [⟨pyStrip (String.mk a), "INVALID", "invalid"⟩]) ms
            (dict_set iv (pyStrip (String.mk a))
              (validate_summary (pyStrip (String.mk b)) config)))) ∧
    (((pyStrip raw).data.isEmpty = true ∨ strStarts "#" (pyStrip raw) = true ∨
      strStarts "//" (pyStrip raw) = true ∨ strStarts "-" (pyStrip raw) = true ∨
      (pyStrip raw).data.contains ':' = true ∨ split_once ',' (pyStrip raw).data = none) →
      strStarts "manual_files[" (pyStrip raw) = false →
      strStarts "folders[" (pyStrip raw) = false → strStarts "files[" (pyStrip raw) = false →
      ∀ bb, read_manual_go exists_fn config bb (raw :: rest) es ms iv =
        read_manual_go exists_fn config bb rest es ms iv) := by
  constructor
  · intro a b h1 h2 h3 h4 h5 h6 h7 h8 hsp
    simp only [read_manual_go]
    have h8m : ':' ∉ (pyStrip raw).data := by simpa using h8
    rw [if_neg (by simp [h1]), if_neg (by simp [h2, h3]), if_neg (by simp [h4]),
      if_neg (by simp [h5, h6]), if_neg (by simp [h7, h8m])]
    simp only [hsp]
    by_cases he : exists_fn (pyStrip (String.mk a)) = true
    · rw [if_neg (show ¬ (!exists_fn (pyStrip (String.mk a))) = true by simp [he]),
        if_neg (show ¬ exists_fn (pyStrip (String.mk a)) = false by simp [he])]
    · have he2 : exists_fn (pyStrip (String.mk a)) = false := by
        rwa [Bool.not_eq_true] at he
      rw [if_pos (show (!exists_fn (pyStrip (String.mk a))) = true by simp [he2]),
        if_pos he2]
  · intro hdis h4 h5 h6 bb
    simp only [read_manual_go]
    by_cases c1 : (pyStrip raw).data.isEmpty = true
    · rw [if_pos c1]
    rw [if_neg c1]
    by_cases c2 : (strStarts "#" (pyStrip raw) || strStarts "//" (pyStrip raw)) = true
    · rw [if_pos c2]
    rw [if_neg c2]
    rw [if_neg (by simp [h4]), if_neg (by simp [h5, h6])]
    by_cases c5 : (!bb || strStarts "-" (pyStrip raw) || (pyStrip raw).data.contains ':') = true
    · rw [if_pos c5]
    rw [if_neg c5]
    cases hsp : split_once ',' (pyStrip raw).data with
    | none => simp only
    | some ab =>
      exfalso
      rcases hdis with h | h | h | h | h | h
      · exact c1 h
      · exact c2 (by simp [h])
      · exact c2 (by simp [h])
      · exact c5 (by simp [h])
      · have hm : ':' ∈ (pyStrip raw).data := by simpa using h
        exact c5 (by simp [hm])
      · rw [hsp] at h
        exact Option.noConfusion h

theorem C8_witness :
    (read_manual_go (fun p => p = "y.txt") cfg0 true ["y.txt, Fine summary"] [] [] [] =
      read_manual_go (fun p => p = "y.txt") cfg0 true []
        [⟨"y.txt", "Fine summary", "manual"⟩] [] []) ∧
    (read_manual_go (fun p => p = "y.txt") cfg0 true ["- dash, line"] [] [] [] =
      read_manual_go (fun p => p = "y.txt") cfg0 true [] [] [] []) := by
  constructor
  · have h := (C8_manual_line_step (fun p => p = "y.txt") cfg0 "y.txt, Fine summary"
      [] [] [] []).1 "y.txt".data " Fine summary".data (by decide) (by decide) (by decide)
      (by decide) (by decide) (by decide) (by decide) (by decide) (by decide)
    rw [h]
    decide
  · exact (C8_manual_line_step (fun p => p = "y.txt") cfg0 "- dash, line"
      [] [] [] []).2 (by decide) (by decide) (by decide) (by decide) true

/-! Facts about the walker and the pipeline hashes. -/

theorem files_match_map_fst (config : AtlasConfig) :
    ∀ (fa fb : List (List String × List String)), files_match config fa fb = true →
    fa.map Prod.fst = fb.map Prod.fst
  | [], [], _ => rfl
  | [], _ :: _, h => by simp [files_match] at h
  | _ :: _, [], h => by simp [files_match] at h
  | f :: fs, g :: gs, h => by
    simp only [files_match, Bool.and_eq_true, decide_eq_true_eq] at h
    obtain ⟨⟨h1, _⟩, h3⟩ := h
    simp only [List.map_cons, h1]
    rw [files_match_map_fst config fs gs h3]

theorem files_match_filter_tracked (config : AtlasConfig) :
    ∀ (fa fb : List (List String × List String)), files_match config fa fb = true →
    fa.filter (fun f => is_tracked_file f.1 config) =
      fb.filter (fun f => is_tracked_file f.1 config)
  | [], [], _ => rfl
  | [], _ :: _, h => by simp [files_match] at h
  | _ :: _, [], h => by simp [files_match] at h
  | f :: fs, g :: gs, h => by
    simp only [files_match, Bool.and_eq_true, decide_eq_true_eq] at h
    obtain ⟨⟨h1, h2⟩, h3⟩ := h
    simp only [List.filter_cons]
    by_cases ht : is_tracked_file f.1 config = true
    · rw [if_pos ht] at h2
      have h2' : f.2 = g.2 := by simpa using h2
      have hfg : f = g := Prod.ext h1 h2'
      rw [hfg]
      rw [files_match_filter_tracked config fs gs h3]
    · have htg : is_tracked_file g.1 config = false := by
        rw [← h1]
        rwa [Bool.not_eq_true] at ht
      have htf : is_tracked_file f.1 config = false := by rwa [Bool.not_eq_true] at ht
      simp only [htf, htg, Bool.false_eq_true, if_false]
      exact files_match_filter_tracked config fs gs h3

theorem any_posix_fst (s : String) : ∀ (l : List (List String × List String)),
    (l.any fun f => decide (posix f.1 = s)) =
      ((l.map Prod.fst).any fun p => decide (posix p = s))
  | [] => rfl
  | x :: xs => by simp only [List.any_cons, List.map_cons, any_posix_fst s xs]

theorem path_exists_congr (a b : RepoState) (hdirs : a.dirs = b.dirs)
    (hfst : a.files.map Prod.fst = b.files.map Prod.fst) :
    path_exists a = path_exists b := by
  funext s
  simp only [path_exists]
  rw [hdirs, any_posix_fst s a.files, any_posix_fst s b.files, hfst]

/-- C2 counterexample, refuting the claim as stated: the manual sidecar list
is itself an untracked file (it is not a tracked source file and not a
folder), and two states that differ only in its contents produce different
file hashes, because the sidecar contents feed the manual records merged
into the hashed record set. -/
theorem C2_counterexample_sidecar_contents :
    differ_only_in_untracked stA stB cfgM = true ∧
    snapshot_file_hash stA cfgM ≠ snapshot_file_hash stB cfgM := by
  decide

/-- C2 as amended: the pipeline is a pure function of the repository state
and configuration, and for two states that differ only in the contents of
untracked files none of which is the configured manual sidecar list, the
file hash and the folder hash both agree across the two states. -/
theorem C2_hashes_ignore_untracked_contents (a b : RepoState) (config : AtlasConfig)
    (h : differ_only_in_untracked a b config = true)
    (hm : ∀ mp, config.manual_files_path = some mp →
      state_file_content a mp = state_file_content b mp) :
    snapshot_file_hash a config = snapshot_file_hash b config ∧
    snapshot_folder_hash a config = snapshot_folder_hash b config := by
  simp only [differ_only_in_untracked, Bool.and_eq_true, decide_eq_true_eq] at h
  obtain ⟨hdirs, hfm⟩ := h
  have htracked : tracked_files a config = tracked_files b config := by
    simp only [tracked_files]
    rw [files_match_filter_tracked config a.files b.files hfm]
  have hfolders : tracked_folders a config = tracked_folders b config := by
    simp only [tracked_folders, hdirs]
  have hpe : path_exists a = path_exists b :=
    path_exists_congr a b hdirs (files_match_map_fst config a.files b.files hfm)
  have hmanual : read_manual_file_entries a config = read_manual_file_entries b config := by
    simp only [read_manual_file_entries]
    cases hmp : config.manual_files_path with
    | none => rfl
    | some mp =>
      simp only [hm mp hmp, hpe]
  refine ⟨?_, ?_⟩
  · simp only [snapshot_file_hash, snapshot_file_records, htracked, hmanual]
  · simp only [snapshot_folder_hash, hfolders]

theorem C2_witness :
    differ_only_in_untracked stA stC cfgM = true ∧
    snapshot_file_hash stA cfgM = snapshot_file_hash stC cfgM ∧
    snapshot_folder_hash stA cfgM = snapshot_folder_hash stC cfgM := by
  have h := C2_hashes_ignore_untracked_contents stA stC cfgM (by decide)
    (fun mp hmp => by
      have h2 : mp = ["m.toon"] := by
        have h3 : (some ["m.toon"] : Option (List String)) = some mp := hmp
        exact (Option.some.inj h3).symm
      subst h2
      decide)
  exact ⟨by decide, h.1, h.2⟩

/-! Lint error classification: every pre-hash error line is one of the fixed
full-line messages or an indented item beginning with a space, so the two
hash staleness lines can only come from the closing hash segment. -/

theorem data_append (a b : String) : (a ++ b).data = a.data ++ b.data := rfl

theorem ne_nil_of_not_isEmpty {α : Type} {l : List α} (h : (!l.isEmpty) = true) :
    l ≠ [] := by
  cases l with
  | nil => simp at h
  | cons a as => simp

theorem format_list_head (items : List String) (h : items ≠ []) :
    (format_list items).data.head? = some ' ' := by
  rcases items with _ | ⟨x, _ | ⟨y, ys⟩⟩
  · exact absurd rfl h
  · rfl
  · rfl

theorem dash_item_head (a b c : String) :
    (" - " ++ a ++ b ++ c).data.head? = some ' ' := rfl

theorem mem_fl_seg {e hdr : String} {cnd : Bool} {items : List String}
    (hne : cnd = true → items ≠ [])
    (he : e ∈ (if cnd = true then [hdr, format_list items] else [])) :
    e = hdr ∨ e.data.head? = some ' ' := by
  cases cnd with
  | false => simp at he
  | true =>
    rw [if_pos rfl] at he
    rcases List.mem_cons.mp he with h1 | h2
    · exact Or.inl h1
    · rcases List.mem_cons.mp h2 with h3 | h4
      · exact Or.inr (h3 ▸ format_list_head items (hne rfl))
      · simp at h4

theorem mem_sorted_seg {e hdr : String} {cnd : Bool} {l : List (String × List String)}
    (he : e ∈ (if cnd = true then
      hdr :: l.map (fun kv => " - " ++ kv.1 ++ ": " ++ strJoin ", " kv.2) else [])) :
    e = hdr ∨ e.data.head? = some ' ' := by
  cases cnd with
  | false => simp at he
  | true =>
    rw [if_pos rfl] at he
    rcases List.mem_cons.mp he with h1 | h2
    · exact Or.inl h1
    · rcases List.mem_map.mp h2 with ⟨kv, _, hkv⟩
      exact Or.inr (hkv ▸ dash_item_head kv.1 ": " (strJoin ", " kv.2))

theorem mem_single_seg {e m : String} {cnd : Bool}
    (he : e ∈ (if cnd = true then [m] else [])) : e = m := by
  cases cnd with
  | false => simp at he
  | true =>
    rw [if_pos rfl] at he
    simpa using he

theorem mem_overview_seg {e : String} {oov : Option Overview} {oiss : List String}
    {exp : Overview} (he : e ∈ overview_seg oov oiss exp) :
    e ∈ lint_fixed_msgs := by
  cases oov with
  | none =>
    simp only [overview_seg, List.mem_singleton] at he
    rw [he]; decide
  | some ov =>
    simp only [overview_seg] at he
    by_cases h1 : (!oiss.isEmpty) = true
    · rw [if_pos h1] at he
      simp only [List.mem_singleton] at he
      rw [he]; decide
    · rw [if_neg h1] at he
      by_cases h2 : ov ≠ exp
      · rw [if_pos h2] at he
        simp only [List.mem_singleton] at he
        rw [he]; decide
      · rw [if_neg h2] at he
        simp at he

theorem run_lint_pre_elems (st : RepoState) (config : AtlasConfig)
    (flags : LintFlags) (env : LintEnv) (map_lines : Option (List String)) :
    ∀ e ∈ run_lint_pre_errors st config flags env map_lines,
      e ∈ lint_fixed_msgs ∨ e.data.head? = some ' ' := by
  intro e he
  rcases hb : build_file_records (tracked_files st config) config with ⟨fr, mh, ih⟩
  rcases hm : read_manual_file_entries st config with ⟨mr, mm, mi, me⟩
  rcases hfo : build_folder_records st (tracked_folders st config) config with ⟨fo, mf, iv⟩
  rcases ho : read_overview map_lines with ⟨oov, oiss⟩
  simp only [run_lint_pre_errors, hb, hm, hfo, ho, List.mem_append] at he
  rcases he with (((((((h1 | h2) | h3) | h4) | h5) | h6) | h7) | h8) | h9
  · rcases mem_fl_seg (fun hc => ne_nil_of_not_isEmpty hc) h1 with h | h
    · exact Or.inl (by rw [h]; decide)
    · exact Or.inr h
  · rcases mem_fl_seg (fun hc => ne_nil_of_not_isEmpty hc) h2 with h | h
    · exact Or.inl (by rw [h]; decide)
    · exact Or.inr h
  · have hne : (!mi.isEmpty) = true →
        List.map (fun kv : String × List String => kv.1) mi ≠ [] := by
      intro hc hx
      have h0 : mi ≠ [] := ne_nil_of_not_isEmpty hc
      exact h0 (by simpa using hx)
    rcases mem_fl_seg hne h3 with h | h
    · exact Or.inl (by rw [h]; decide)
    · exact Or.inr h
  · rcases mem_fl_seg (fun hc => ne_nil_of_not_isEmpty hc) h4 with h | h
    · exact Or.inl (by rw [h]; decide)
    · exact Or.inr h
  · rcases mem_sorted_seg h5 with h | h
    · exact Or.inl (by rw [h]; decide)
    · exact Or.inr h
  · rcases mem_sorted_seg h6 with h | h
    · exact Or.inl (by rw [h]; decide)
    · exact Or.inr h
  · have hne : (flags.strict_folders && !mf.isEmpty) = true → mf ≠ [] := by
      intro hc
      rw [Bool.and_eq_true] at hc
      exact ne_nil_of_not_isEmpty hc.2
    rcases mem_fl_seg hne h7 with h | h
    · exact Or.inl (by rw [h]; decide)
    · exact Or.inr h
  · exact Or.inl (by rw [mem_single_seg h8]; decide)
  · exact Or.inl (mem_overview_seg h9)

/-- C3: with both hashes stored in the map, the file-hash staleness message
is reported exactly when the stored file hash differs from the freshly
computed one, the folder-hash staleness message exactly when the stored
folder hash differs from the freshly computed one, and the two messages are
distinct; a cleanly parsed overview differing from the freshly computed one
puts the overview staleness message in the error list; and run_lint exits
nonzero exactly when at least one error accumulated. -/
theorem C3_stale_reports_independent (st : RepoState) (config : AtlasConfig)
    (flags : LintFlags) (env : LintEnv) (map_lines : Option (List String))
    (fh gh : String) (hst : read_map_hashes map_lines = (some fh, some gh)) :
    (("Atlas map file hash stale. Run: projectatlas map" ∈
        run_lint_errors st config flags env map_lines) ↔
      fh ≠ snapshot_file_hash st config) ∧
    (("Atlas map folder hash stale. Run: projectatlas map" ∈
        run_lint_errors st config flags env map_lines) ↔
      gh ≠ snapshot_folder_hash st config) ∧
    ("Atlas map file hash stale. Run: projectatlas map" ≠
      "Atlas map folder hash stale. Run: projectatlas map") ∧
    (∀ ov, read_overview map_lines = (some ov, []) →
      ov ≠ compute_overview (tracked_folders st config) (tracked_files st config) config →
      "Atlas map overview stale. Run: projectatlas map" ∈
        run_lint_errors st config flags env map_lines) ∧
    (run_lint st config flags env map_lines ≠ 0 ↔
      run_lint_errors st config flags env map_lines ≠ []) := by
  have hnot : ∀ m : String, m ∉ lint_fixed_msgs → m.data.head? ≠ some ' ' →
      m ∉ run_lint_pre_errors st config flags env map_lines := by
    intro m h1 h2 hmem
    rcases run_lint_pre_elems st config flags env map_lines m hmem with h | h
    · exact h1 h
    · exact h2 h
  refine ⟨?_, ?_, by decide, ?_, ?_⟩
  · constructor
    · intro hmem
      simp only [run_lint_errors, hst, run_lint_hash_errors] at hmem
      rcases List.mem_append.mp hmem with h | h
      · exact absurd h (hnot _ (by decide) (by decide))
      · rcases List.mem_append.mp h with h1 | h1
        · by_cases hf : fh = snapshot_file_hash st config
          · rw [if_neg (show ¬ fh ≠ snapshot_file_hash st config from fun hc => hc hf)] at h1
            simp at h1
          · exact hf
        · by_cases hg : gh = snapshot_folder_hash st config
          · rw [if_neg (show ¬ gh ≠ snapshot_folder_hash st config from fun hc => hc hg)] at h1
            simp at h1
          · rw [if_pos hg] at h1
            exact absurd (List.mem_singleton.mp h1) (by decide)
    · intro hf
      simp only [run_lint_errors, hst, run_lint_hash_errors]
      apply List.mem_append_right
      apply List.mem_append_left
      rw [if_pos hf]
      exact List.mem_singleton.mpr rfl
  · constructor
    · intro hmem
      simp only [run_lint_errors, hst, run_lint_hash_errors] at hmem
      rcases List.mem_append.mp hmem with h | h
      · exact absurd h (hnot _ (by decide) (by decide))
      · rcases List.mem_append.mp h with h1 | h1
        · by_cases hf : fh = snapshot_file_hash st config
          · rw [if_neg (show ¬ fh ≠ snapshot_file_hash st config from fun hc => hc hf)] at h1
            simp at h1
          · rw [if_pos hf] at h1
            exact absurd (List.mem_singleton.mp h1) (by decide)
        · by_cases hg : gh = snapshot_folder_hash st config
          · rw [if_neg (show ¬ gh ≠ snapshot_folder_hash st config from fun hc => hc hg)] at h1
            simp at h1
          · exact hg
    · intro hg
      simp only [run_lint_errors, hst, run_lint_hash_errors]
      apply List.mem_append_right
      apply List.mem_append_right
      rw [if_pos hg]
      exact List.mem_singleton.mpr rfl
  · intro ov ho hne
    simp only [run_lint_errors]
    apply List.mem_append_left
    rcases hb : build_file_records (tracked_files st config) config with ⟨fr, mh, ih⟩
    rcases hm : read_manual_file_entries st config with ⟨mr, mm, mi, me⟩
    rcases hfo : build_folder_records st (tracked_folders st config) config with ⟨fo, mf, iv⟩
    simp only [run_lint_pre_errors, hb, hm, hfo, ho]
    apply List.mem_append_right
    simp only [overview_seg]
    rw [if_neg (show ¬ (!([] : List String).isEmpty) = true by decide)]
    rw [if_pos hne]
    exact List.mem_singleton.mpr rfl
  · constructor
    · intro h hnil
      apply h
      simp [run_lint, hnil]
    · intro h
      simp only [run_lint]
      rw [if_neg (show ¬ (run_lint_errors st config flags env map_lines).isEmpty = true from
        fun hc => h (List.isEmpty_iff.mp hc))]
      decide

theorem C3_witness :
    read_map_hashes (some mlC3) = (some "aaa", some "bbb") ∧
    ((("Atlas map file hash stale. Run: projectatlas map" ∈
        run_lint_errors st0 cfg0 flags0 env0 (some mlC3)) ↔
      "aaa" ≠ snapshot_file_hash st0 cfg0) ∧
     (("Atlas map folder hash stale. Run: projectatlas map" ∈
        run_lint_errors st0 cfg0 flags0 env0 (some mlC3)) ↔
      "bbb" ≠ snapshot_folder_hash st0 cfg0) ∧
     ("Atlas map file hash stale. Run: projectatlas map" ≠
       "Atlas map folder hash stale. Run: projectatlas map") ∧
     (∀ ov, read_overview (some mlC3) = (some ov, []) →
       ov ≠ compute_overview (tracked_folders st0 cfg0) (tracked_files st0 cfg0) cfg0 →
       "Atlas map overview stale. Run: projectatlas map" ∈
         run_lint_errors st0 cfg0 flags0 env0 (some mlC3)) ∧
     (run_lint st0 cfg0 flags0 env0 (some mlC3) ≠ 0 ↔
       run_lint_errors st0 cfg0 flags0 env0 (some mlC3) ≠ [])) :=
  ⟨by decide,
   C3_stale_reports_independent st0 cfg0 flags0 env0 (some mlC3) "aaa" "bbb" (by decide)⟩

end ProjectAtlas
